import Mathlib

/-
  Verification of the TriplanAI itinerary scheduling and transport-inference
  engine (Backend, ItineraryItemsService — the version that carries the
  transport logic) against its natural-language specification.

  The embedding models the per-itinerary slice of the `itinerary_items`
  table as a `List Item` (row order is the table's internal row order; the
  service always reads through `ORDER BY order_index ASC`, embedded as a
  stable insertion sort).  SQL `UPDATE ... WHERE id = $n` is embedded as a
  pointwise map over the rows; `SELECT ... WHERE` single-row reads are
  `List.find?`.  The external routing collaborator
  (`routesService.getDistance`) is an oracle parameter: a behaviour maps a
  call index and a query (origin, destination, travel mode) to either a
  thrown error or an optional route result, mirroring that the service can
  answer each call independently.  JavaScript truthiness (`x || d`, `!x`)
  is embedded explicitly wherever the source relies on it.
-/

namespace Triplan

/-- Transport modes supported by the routing layer (`TravelModeType` in the
source); the classifier only ever produces the first three. -/
inductive Mode where
  | walking
  | driving
  | transit
  | bicycling
deriving DecidableEq, Repr

/-- A time of day as parsed from an `HH:MM[:SS]` string by
`split(':').map(Number)`: an hours component and a minutes component.  The
hours component is not reduced modulo 24 here because the source only wraps
it when it formats a freshly computed time. -/
structure HM where
  h : Nat
  m : Nat
deriving DecidableEq, Repr

/-- Total minutes represented by a parsed time (`hours * 60 + minutes`). -/
def HM.toMinutes (t : HM) : Nat := t.h * 60 + t.m

/-- The time the source formats from a total-minute count:
`hours = floor(total / 60) % 24`, `minutes = total % 60`. -/
def HM.ofTotal (total : Nat) : HM := ⟨total / 60 % 24, total % 60⟩

/-- JavaScript `x || d` on an optional number column: `null`/`undefined`
and `0` are falsy and select the default. -/
def jsOrNat (x : Option Nat) (d : Nat) : Nat :=
  match x with
  | some v => if v = 0 then d else v
  | none => d

/-- JavaScript `x || d` on an optional string: `null`/`undefined` and the
empty string are falsy. -/
def jsOrStr (x : Option String) (d : String) : String :=
  match x with
  | some s => if s = "" then d else s
  | none => d

/-- JavaScript `x || null` on an optional string (`''` becomes `null`). -/
def jsOrStrNull (x : Option String) : Option String :=
  match x with
  | some s => if s = "" then none else some s
  | none => none

/-- JavaScript `x || null` on an optional numeric column (`0` becomes
`null`). -/
def jsOrQNull (x : Option ℚ) : Option ℚ :=
  match x with
  | some v => if v = 0 then none else some v
  | none => none

/-- `Math.ceil(t / 60)` for a nonnegative integer number of seconds. -/
def ceil60 (t : Nat) : Nat := (t + 59) / 60

/-- JavaScript truthiness of an optional numeric coordinate: `null` and `0`
are falsy.  Returns the coordinate when truthy. -/
def truthyQ (x : Option ℚ) : Option ℚ :=
  match x with
  | some v => if v = 0 then none else some v
  | none => none

/-- Result shape of `routesService.getDistance`: distance in meters,
human-readable distance, duration in seconds, human-readable duration. -/
structure RouteResult where
  distance : Nat
  distanceText : String
  duration : Nat
  durationText : String
deriving DecidableEq, Repr

/-- A geographic coordinate pair (latitude, longitude) as handed to the
routing collaborator. -/
abbrev Coord : Type := ℚ × ℚ

/-- One routing query: origin, destination, travel mode. -/
abbrev Query : Type := Coord × Coord × Mode

/-- A behaviour of the Location Resolver: for each call (identified by a
running call index) and query, either a thrown error or the optional
result that `getDistance` resolves with (`none` models its `null`). -/
def Behaviour : Type := Nat → Query → Except Unit (Option RouteResult)

/-- Trip context read by the annotator: the owning trip's destination city
and country, when the `trips` join returns a row. -/
structure Ctx where
  trip : Option (String × String)

/-- One row of `itinerary_items`, joined with its place's coordinates (the
annotator and the day view always read items through that join).  `Option`
fields are nullable columns.  `updated_at`/`created_at` are abstract
timestamps. -/
structure Item where
  id : Nat
  order_index : ℤ
  is_starting_point : Bool
  title : String
  description : Option String
  start_time : Option HM
  end_time : Option HM
  duration_minutes : Option Nat
  item_type : String
  status : String
  cost : Option ℚ
  notes : Option String
  distance_from_previous_meters : Option Nat
  distance_from_previous_text : Option String
  travel_time_from_previous_seconds : Option Nat
  travel_time_from_previous_text : Option String
  transport_mode : Option Mode
  latitude : Option ℚ
  longitude : Option ℚ
  created_at : Nat
  updated_at : Nat
deriving DecidableEq, Repr

/-- Order comparison used by `ORDER BY order_index ASC`. -/
def itemLe (a b : Item) : Prop := a.order_index ≤ b.order_index

instance : DecidableRel itemLe := fun a b =>
  inferInstanceAs (Decidable (a.order_index ≤ b.order_index))

instance : IsTotal Item itemLe := ⟨fun a b => Int.le_total a.order_index b.order_index⟩

instance : IsTrans Item itemLe := ⟨fun _ _ _ hab hbc => le_trans hab hbc⟩

/-- `getItineraryItemsByDay`: all rows of the itinerary ordered by
`order_index` ascending (embedded as a stable sort of the row list). -/
def itemsByDay (db : List Item) : List Item := List.insertionSort itemLe db

/-- The source's static `bigCities` table in `isBigCity`, verbatim. -/
def bigCities : List (String × List String) :=
  [("Portugal", ["Lisboa", "Lisbon", "Porto", "Oporto"]),
   ("Spain", ["Madrid", "Barcelona", "Valencia", "Seville", "Sevilla", "Bilbao"]),
   ("France", ["Paris", "Lyon", "Marseille", "Toulouse", "Nice"]),
   ("Italy", ["Rome", "Roma", "Milan", "Milano", "Naples", "Napoli", "Turin", "Torino", "Florence", "Firenze"]),
   ("Germany", ["Berlin", "Munich", "München", "Hamburg", "Cologne", "Köln", "Frankfurt"]),
   ("United Kingdom", ["London", "Manchester", "Birmingham", "Glasgow", "Liverpool", "Edinburgh"]),
   ("United States", ["New York", "Los Angeles", "Chicago", "Houston", "Phoenix", "Philadelphia", "San Antonio", "San Diego", "Dallas", "San Francisco", "Washington"]),
   ("Brazil", ["São Paulo", "Rio de Janeiro", "Brasília", "Salvador", "Fortaleza", "Belo Horizonte"]),
   ("Japan", ["Tokyo", "Osaka", "Yokohama", "Nagoya", "Sapporo", "Fukuoka", "Kyoto"]),
   ("China", ["Beijing", "Shanghai", "Guangzhou", "Shenzhen", "Chengdu", "Hangzhou"]),
   ("India", ["Mumbai", "Delhi", "Bangalore", "Hyderabad", "Chennai", "Kolkata"])]

/-- JavaScript `toLowerCase()`, embedded character by character (for the
ASCII names involved here this agrees with the JavaScript function). -/
def jsLower (s : String) : String := ⟨s.data.map Char.toLower⟩

/-- JavaScript `trim()`: strip leading and trailing whitespace. -/
def jsTrim (s : String) : String :=
  ⟨((s.data.dropWhile Char.isWhitespace).reverse.dropWhile Char.isWhitespace).reverse⟩

/-- `isBigCity(city, country)`: the city is lower-cased and trimmed; the
country is looked up as an exact object key; when the country is not a
key, every country's city list is scanned. -/
def isBigCity (city country : String) : Bool :=
  let normalizedCity := jsTrim (jsLower city)
  match bigCities.find? (fun e => e.1 = country) with
  | some e => e.2.any (fun b => jsLower b = normalizedCity)
  | none => bigCities.any (fun e => e.2.any (fun b => jsLower b = normalizedCity))

/-- `determineTransportMode(travelTimeSeconds, isBigCity)`: walking under
ten minutes, otherwise transit in big cities and driving elsewhere.  The
duration is a JavaScript number, embedded as a rational so the division by
60 is exact. -/
def determineTransportMode (travelTimeSeconds : ℚ) (isBigCityFlag : Bool) : Mode :=
  let travelTimeMinutes := travelTimeSeconds / 60
  if travelTimeMinutes < 10 then
    Mode.walking
  else if isBigCityFlag then
    Mode.transit
  else
    Mode.driving

/-- The SQL `UPDATE itinerary_items SET distance_from_previous_meters = ...,
transport_mode = ... WHERE id = ...` issued by the annotator, applied to one
row.  The stored mode is the raw `transportMode` variable, which may still
be null. -/
def setDistFields (fr : RouteResult) (tm : Option Mode) (it : Item) : Item :=
  { it with
    distance_from_previous_meters := some fr.distance,
    distance_from_previous_text := some fr.distanceText,
    travel_time_from_previous_seconds := some fr.duration,
    travel_time_from_previous_text := some fr.durationText,
    transport_mode := tm }

/-- An `UPDATE ... WHERE id = targetId` row transformation on the table. -/
def updateById (db : List Item) (targetId : Nat) (f : Item → Item) : List Item :=
  db.map (fun it => if it.id = targetId then f it else it)

/-- Applies an optional pending annotator write (route result plus stored
mode) to the table; `none` means no `UPDATE` was issued. -/
def applyW (db : List Item) (targetId : Nat) (w : Option (RouteResult × Option Mode)) : List Item :=
  match w with
  | none => db
  | some p => updateById db targetId (setDistFields p.1 p.2)

/-- The decision core of `calculateDistancesForItem` after the current and
previous rows have been fetched: the coordinate truthiness guard, the
pinned-mode check, the preliminary driving query, the classifier, and the
final query, inside the source's `try`/`catch` (a thrown resolver error is
caught and produces no write).  Returns the pending write (if any) and the
list of resolver queries issued, in order. -/
def distDecision (ctx : Ctx) (beh : Behaviour) (idx : Nat) (cur : Item)
    (plat plng : Option ℚ) : Option (RouteResult × Option Mode) × List Query :=
  match truthyQ cur.latitude, truthyQ cur.longitude, truthyQ plat, truthyQ plng with
  | some clat, some clng, some pla, some pln =>
    let pc : Coord := (pla, pln)
    let cc : Coord := (clat, clng)
    match cur.transport_mode with
    | some m =>
      let q : Query := (pc, cc, m)
      match beh idx q with
      | .error _ => (none, [q])
      | .ok none => (none, [q])
      | .ok (some fr) => (some (fr, some m), [q])
    | none =>
      let big :=
        match ctx.trip with
        | some ck => isBigCity ck.1 ck.2
        | none => false
      let q1 : Query := (pc, cc, Mode.driving)
      match beh idx q1 with
      | .error _ => (none, [q1])
      | .ok r0 =>
        let tm : Option Mode := r0.map (fun r => determineTransportMode (r.duration : ℚ) big)
        let q2 : Query := (pc, cc, tm.getD Mode.driving)
        match beh (idx + 1) q2 with
        | .error _ => (none, [q1, q2])
        | .ok none => (none, [q1, q2])
        | .ok (some fr) => (some (fr, tm), [q1, q2])
  | _, _, _, _ => (none, [])

/-- `calculateDistancesForItem(itineraryId, itemId)`: fetch the item, fetch
its predecessor by `order_index - 1`, and run the annotation decision; the
final state is the table with the pending write applied.  Missing item,
missing predecessor, or a falsy coordinate each make it a silent no-op. -/
def calculateDistancesForItem (ctx : Ctx) (beh : Behaviour) (idx : Nat)
    (db : List Item) (itemId : Nat) : List Item × List Query :=
  match db.find? (fun it => it.id = itemId) with
  | none => (db, [])
  | some cur =>
    match db.find? (fun it => it.order_index = cur.order_index - 1) with
    | none => (db, [])
    | some prev =>
      let d := distDecision ctx beh idx cur prev.latitude prev.longitude
      (applyW db itemId d.1, d.2)

/-- Sequentially annotates the rows with the given ids (the loops in
`reorderItems` and `recalculateDistances`), threading the table state and
the resolver call index. -/
def recalcDistGo (ctx : Ctx) (beh : Behaviour) : Nat → List Item → List Nat → List Item × List Query
  | _, db, [] => (db, [])
  | idx, db, i :: is =>
    let r := calculateDistancesForItem ctx beh idx db i
    let r2 := recalcDistGo ctx beh (idx + r.2.length) r.1 is
    (r2.1, r.2 ++ r2.2)

/-- `recalculateDistances(itineraryId)`: annotate every item after the
first in day order. -/
def recalculateDistances (ctx : Ctx) (beh : Behaviour) (idx : Nat)
    (db : List Item) : List Item × List Query :=
  recalcDistGo ctx beh idx db (((itemsByDay db).drop 1).map Item.id)

/-- The SQL `UPDATE itinerary_items SET start_time = ..., end_time = ...
WHERE id = ...` issued by the time cascade, applied to the table. -/
def updateTimesById (db : List Item) (targetId : Nat) (st en : Option HM) : List Item :=
  updateById db targetId (fun it => { it with start_time := st, end_time := en })

/-- One loop iteration of `recalculateTimesFromItem` for a current item
whose predecessor has a (parsed) start time: `calculateNextStartTime` plus
the end-time computation.  A falsy (`null` or `0`) duration leaves the end
time unset. -/
def stepItem (ps : HM) (prev cur : Item) : Item :=
  let total := ps.toMinutes + jsOrNat prev.duration_minutes 60
      + ceil60 (jsOrNat cur.travel_time_from_previous_seconds 0)
  let ns := HM.ofTotal total
  let en : Option HM :=
    match cur.duration_minutes with
    | some d => if d = 0 then none else some (HM.ofTotal (ns.toMinutes + d))
    | none => none
  { cur with start_time := some ns, end_time := en }

/-- The for-loop of `recalculateTimesFromItem`: walks the remaining items
in day order carrying the previous item's freshly updated local copy,
writing each new start/end time through to the table; an item whose
previous item has no start time is skipped (`continue`). -/
def cascadeDb : List Item → Item → List Item → List Item
  | db, _, [] => db
  | db, prev, cur :: rest =>
    match prev.start_time with
    | none => cascadeDb db cur rest
    | some ps =>
      let cur' := stepItem ps prev cur
      cascadeDb (updateTimesById db cur'.id cur'.start_time cur'.end_time) cur' rest

/-- The anchoring of the first item when the cascade starts from index 0:
start time forced to `09:00:00`, end time `09:00` plus the duration when
the duration is truthy, cleared otherwise. -/
def anchorItem (first : Item) : Item :=
  let en : Option HM :=
    match first.duration_minutes with
    | some d => if d = 0 then none else some (HM.ofTotal (9 * 60 + d))
    | none => none
  { first with start_time := some ⟨9, 0⟩, end_time := en }

/-- `recalculateTimesFromItem(itineraryId, fromIndex)`: load the items in
day order, anchor the first item when `fromIndex = 0`, then cascade from
`fromIndex + 1` onward. -/
def recalculateTimesFromItem (db : List Item) (fromIndex : Nat) : List Item :=
  let items := itemsByDay db
  if fromIndex = 0 then
    match items with
    | [] => db
    | first :: rest =>
      let f := anchorItem first
      cascadeDb (updateTimesById db f.id f.start_time f.end_time) f rest
  else
    match items.drop fromIndex with
    | [] => db
    | prev :: rest => cascadeDb db prev rest

/-- Input of `createItineraryItem`.  The row id stands for the primary key
the store assigns; the coordinates stand for the associated place's
coordinates (the place create/lookup path is out of the engine's scope, so
they are supplied directly). -/
structure NewItem where
  id : Nat
  orderIndex : Nat
  title : String
  description : Option String
  startTime : Option HM
  endTime : Option HM
  durationMinutes : Option Nat
  itemType : String
  status : Option String
  cost : Option ℚ
  notes : Option String
  latitude : Option ℚ
  longitude : Option ℚ
deriving DecidableEq, Repr

/-- The row inserted by `createItineraryItem`: default start time
`(9 + 3 * orderIndex):00` when none is given, default end time start plus
duration when a truthy duration is given, stored duration
`durationMinutes || 60`, starting-point flag `orderIndex === 0`, and no
transport-from-previous data. -/
def insertRow (data : NewItem) (now : Nat) : Item :=
  let startT : HM :=
    match data.startTime with
    | some t => t
    | none => ⟨9 + data.orderIndex * 3, 0⟩
  let endT : Option HM :=
    match data.endTime with
    | some t => some t
    | none =>
      match data.durationMinutes with
      | some d => if d = 0 then none else some (HM.ofTotal (startT.toMinutes + d))
      | none => none
  { id := data.id,
    order_index := (data.orderIndex : ℤ),
    is_starting_point := decide (data.orderIndex = 0),
    title := data.title,
    description := data.description,
    start_time := some startT,
    end_time := endT,
    duration_minutes := some (jsOrNat data.durationMinutes 60),
    item_type := data.itemType,
    status := jsOrStr data.status "planned",
    cost := jsOrQNull data.cost,
    notes := jsOrStrNull data.notes,
    distance_from_previous_meters := none,
    distance_from_previous_text := none,
    travel_time_from_previous_seconds := none,
    travel_time_from_previous_text := none,
    transport_mode := none,
    latitude := data.latitude,
    longitude := data.longitude,
    created_at := now,
    updated_at := now }

/-- `createItineraryItem`: insert the row; when its position is positive,
annotate it and cascade from the previous position, otherwise cascade from
position 0. -/
def createItineraryItem (ctx : Ctx) (beh : Behaviour) (idx : Nat) (db : List Item)
    (data : NewItem) (now : Nat) : List Item × List Query :=
  let db1 := db ++ [insertRow data now]
  if 0 < data.orderIndex then
    let r := calculateDistancesForItem ctx beh idx db1 data.id
    (recalculateTimesFromItem r.1 (data.orderIndex - 1), r.2)
  else
    (recalculateTimesFromItem db1 data.orderIndex, [])

/-- The first loop of `reorderItems`: walk the given item ids, assigning
`order_index = i` and `is_starting_point = (i === 0)` to the row with each
id. -/
def assignOrders : List Item → Nat → List Nat → List Item
  | db, _, [] => db
  | db, i, targetId :: rest =>
    assignOrders
      (db.map (fun it =>
        if it.id = targetId then
          { it with order_index := (i : ℤ), is_starting_point := decide (i = 0) }
        else it))
      (i + 1) rest

/-- `reorderItems(itineraryId, itemIds)`: reassign positions and
starting-point flags in list order, annotate every id after the first,
then cascade all times from position 0. -/
def reorderItems (ctx : Ctx) (beh : Behaviour) (idx : Nat) (db : List Item)
    (ids : List Nat) : List Item × List Query :=
  let db1 := assignOrders db 0 ids
  let r := recalcDistGo ctx beh idx db1 (ids.drop 1)
  (recalculateTimesFromItem r.1 0, r.2)

/-- `deleteItineraryItem(id)`: `DELETE FROM itinerary_items WHERE id = $1`
and nothing else. -/
def deleteItineraryItem (db : List Item) (itemId : Nat) : List Item :=
  db.filter (fun it => it.id != itemId)

/-- A patch accepted by `updateItineraryItem`; `some` marks a field present
in the request body (`!== undefined`).  The `itineraryId` field is omitted
from the model, which covers a single itinerary. -/
structure Patch where
  orderIndex : Option ℤ
  title : Option String
  description : Option String
  startTime : Option HM
  endTime : Option HM
  durationMinutes : Option Nat
  status : Option String
  cost : Option ℚ
  notes : Option String
  transportMode : Option Mode
deriving DecidableEq, Repr

/-- True when the patch contributes at least one `SET` clause. -/
def patchNonempty (p : Patch) : Bool :=
  p.orderIndex.isSome || p.title.isSome || p.description.isSome ||
  p.startTime.isSome || p.endTime.isSome || p.durationMinutes.isSome ||
  p.status.isSome || p.cost.isSome || p.notes.isSome || p.transportMode.isSome

/-- The row update performed by `updateItineraryItem`'s dynamic `SET`
list: each present patch field overwrites the column, and `updated_at` is
set to the current timestamp. -/
def applyPatch (p : Patch) (now : Nat) (it : Item) : Item :=
  { it with
    order_index := p.orderIndex.getD it.order_index,
    title := p.title.getD it.title,
    description := match p.description with | some v => some v | none => it.description,
    start_time := match p.startTime with | some v => some v | none => it.start_time,
    end_time := match p.endTime with | some v => some v | none => it.end_time,
    duration_minutes := match p.durationMinutes with | some v => some v | none => it.duration_minutes,
    status := p.status.getD it.status,
    cost := match p.cost with | some v => some v | none => it.cost,
    notes := match p.notes with | some v => some v | none => it.notes,
    transport_mode := match p.transportMode with | some v => some v | none => it.transport_mode,
    updated_at := now }

/-- `updateItineraryItem(id, data)`: returns the final table state, the
item the call returns, and the resolver queries issued.  `none` models the
rejection paths (the explicit not-found error on an empty patch, and the
crash on updating a missing row).  When the patch carries `transportMode`
and the updated row's position is positive, the annotator is re-run and
the reloaded item returned; otherwise a patch touching `startTime` or
`durationMinutes` triggers the time cascade from the row's position. -/
def updateItineraryItem (ctx : Ctx) (beh : Behaviour) (idx : Nat) (db : List Item)
    (itemId : Nat) (p : Patch) (now : Nat) : Option (List Item × Item × List Query) :=
  if patchNonempty p = false then
    (db.find? (fun it => it.id = itemId)).map (fun it => (db, it, []))
  else
    match db.find? (fun it => it.id = itemId) with
    | none => none
    | some cur =>
      let db1 := updateById db itemId (applyPatch p now)
      let updated := applyPatch p now cur
      if p.transportMode.isSome && decide (0 < updated.order_index) then
        let r := calculateDistancesForItem ctx beh idx db1 itemId
        match r.1.find? (fun it => it.id = itemId) with
        | some refreshed => some (r.1, refreshed, r.2)
        | none =>
          if p.startTime.isSome || p.durationMinutes.isSome then
            some (recalculateTimesFromItem r.1 updated.order_index.toNat, updated, r.2)
          else
            some (r.1, updated, r.2)
      else
        if p.startTime.isSome || p.durationMinutes.isSome then
          some (recalculateTimesFromItem db1 updated.order_index.toNat, updated, [])
        else
          some (db1, updated, [])

/-- Itinerary states reachable from an empty itinerary by the two
structure-changing operations, with inserts appending at the next free
position with a fresh row id and reorders covering exactly the current
rows; the resolver behaviour, the trip context, the call index, and the
timestamps are arbitrary at every step. -/
inductive Reachable : List Item → Prop where
  | nil : Reachable []
  | insert (db : List Item) (ctx : Ctx) (beh : Behaviour) (idx : Nat)
      (data : NewItem) (now : Nat) :
      Reachable db → data.orderIndex = db.length → data.id ∉ db.map Item.id →
      Reachable (createItineraryItem ctx beh idx db data now).1
  | reorder (db : List Item) (ctx : Ctx) (beh : Behaviour) (idx : Nat)
      (ids : List Nat) :
      Reachable db → ids.Perm (db.map Item.id) →
      Reachable (reorderItems ctx beh idx db ids).1

/-- Modelled from the spec: the destination-density lookup as the spec
describes it — the city/country pair is compared, case-insensitively and
after trimming both components, against the entries of the static
reference list, and anything that matches no entry is not dense.  (The
source's `isBigCity` above is the authority; this definition exists only
to be compared with it.) -/
def densePairSpec (city country : String) : Bool :=
  bigCities.any (fun e =>
    jsTrim (jsLower e.1) = jsTrim (jsLower country) &&
    e.2.any (fun b => jsTrim (jsLower b) = jsTrim (jsLower city)))

section Lemmas

/-- A map that fixes every element of a list pointwise is the identity on
that list. -/
theorem map_pointwise_id {α : Type} {f : α → α} {l : List α}
    (h : ∀ x ∈ l, f x = x) : l.map f = l := by
  induction l with
  | nil => rfl
  | cons a t ih =>
    simp only [List.map_cons]
    rw [h a (by simp), ih (fun x hx => h x (by simp [hx]))]

/-- Conversely, a map that reproduces a list fixes each of its elements. -/
theorem pointwise_of_map_eq {α : Type} {f : α → α} {l : List α}
    (h : l.map f = l) : ∀ x ∈ l, f x = x := by
  induction l with
  | nil => simp
  | cons a t ih =>
    simp only [List.map_cons, List.cons.injEq] at h
    intro x hx
    rcases List.mem_cons.mp hx with hx | hx
    · rw [hx]; exact h.1
    · exact ih h.2 x hx

/-- A behaviour that answers every query with a thrown error or with no
result never produces a pending annotator write. -/
theorem distDecision_allfail (ctx : Ctx) (beh : Behaviour) (idx : Nat) (cur : Item)
    (plat plng : Option ℚ)
    (hfail : ∀ (j : Nat) (q : Query), beh j q = .error () ∨ beh j q = .ok none) :
    (distDecision ctx beh idx cur plat plng).1 = none := by
  simp only [distDecision]
  split
  · split
    · split
      · rfl
      · rfl
      · rename_i fr heq
        rcases hfail idx _ with h | h <;> rw [h] at heq <;> simp at heq
    · split
      · rfl
      · rename_i r0 heq
        split
        · rfl
        · rfl
        · rename_i fr heq2
          rcases hfail (idx + 1) _ with h | h <;> rw [h] at heq2 <;> simp at heq2
  · rfl

end Lemmas

section ClaimC2

/-- Claim C2: the transport-mode classifier is the pure total function
mapping a travel duration `d` (seconds) and a density flag `b` to walking
when `d / 60 < 10`, otherwise to transit when `b` holds and to driving
otherwise; in particular `classify(599, false) = walking`,
`classify(600, false) = driving`, and `classify(600, true) = transit`. -/
theorem c2_transport_classifier (d : ℚ) (b : Bool) :
    (d / 60 < 10 → determineTransportMode d b = Mode.walking) ∧
    (¬ d / 60 < 10 → b = true → determineTransportMode d b = Mode.transit) ∧
    (¬ d / 60 < 10 → b = false → determineTransportMode d b = Mode.driving) ∧
    determineTransportMode 599 false = Mode.walking ∧
    determineTransportMode 600 false = Mode.driving ∧
    determineTransportMode 600 true = Mode.transit := by
  refine ⟨fun h => ?_, fun h hb => ?_, fun h hb => ?_, ?_, ?_, ?_⟩
  · simp [determineTransportMode, h]
  · subst hb; simp [determineTransportMode, h]
  · subst hb; simp [determineTransportMode, h]
  · norm_num [determineTransportMode]
  · norm_num [determineTransportMode]
  · norm_num [determineTransportMode]

/-- Witness for C2 at the boundary inputs 599 and 600 seconds. -/
theorem c2_transport_classifier_witness :
    ((599 : ℚ) / 60 < 10 ∧ determineTransportMode 599 false = Mode.walking) ∧
    (¬ (600 : ℚ) / 60 < 10 ∧ determineTransportMode 600 true = Mode.transit) :=
  ⟨⟨by norm_num, (c2_transport_classifier 599 false).1 (by norm_num)⟩,
   ⟨by norm_num, (c2_transport_classifier 600 true).2.1 (by norm_num) rfl⟩⟩

end ClaimC2

section ClaimC8

/-- Claim C8 counterexample: `isBigCity "Paris" "Atlantis"` is true even
though the pair (Paris, Atlantis) matches no entry of the reference list
(case-insensitively, trimmed), because an unknown country falls back to a
city-only scan across every country; so the lookup is not the pair
comparison the claim states. -/
theorem c8_density_pair_counterexample :
    isBigCity "Paris" "Atlantis" = true ∧
    densePairSpec "Paris" "Atlantis" = false := by
  constructor <;> decide

/-- Claim C8 as amended: the city is compared case-insensitively after
trimming; the country must match a listed country name exactly (it is
neither lower-cased nor trimmed), in which case only that country's city
list is consulted; a country matching no listed name falls back to
comparing the city against every listed city of every country; everything
else is not dense. -/
theorem c8_density_lookup_amended (city country : String) :
    isBigCity city country = true ↔
      ((∃ e ∈ bigCities, e.1 = country ∧ ∃ b ∈ e.2, jsLower b = jsTrim (jsLower city)) ∨
       ((∀ e ∈ bigCities, e.1 ≠ country) ∧
        ∃ e ∈ bigCities, ∃ b ∈ e.2, jsLower b = jsTrim (jsLower city))) := by
  have hkeys : (bigCities.map Prod.fst).Nodup := by decide
  unfold isBigCity
  cases hf : bigCities.find? (fun e => decide (e.1 = country)) with
  | none =>
    have hnone := List.find?_eq_none.mp hf
    simp only [decide_eq_true_eq] at hnone
    constructor
    · intro h
      refine Or.inr ⟨fun e he => hnone e he, ?_⟩
      simp only [List.any_eq_true, decide_eq_true_eq] at h
      obtain ⟨e, he, b, hb, hbe⟩ := h
      exact ⟨e, he, b, hb, hbe⟩
    · intro h
      rcases h with ⟨e, he, hc, _⟩ | ⟨_, e, he, b, hb, hbe⟩
      · exact absurd hc (hnone e he)
      · simp only [List.any_eq_true, decide_eq_true_eq]
        exact ⟨e, he, b, hb, hbe⟩
  | some e =>
    have hmem : e ∈ bigCities := List.mem_of_find?_eq_some hf
    have hcountry : e.1 = country := by
      have := List.find?_some hf
      simpa using this
    constructor
    · intro h
      simp only [List.any_eq_true, decide_eq_true_eq] at h
      obtain ⟨b, hb, hbe⟩ := h
      exact Or.inl ⟨e, hmem, hcountry, b, hb, hbe⟩
    · intro h
      simp only [List.any_eq_true, decide_eq_true_eq]
      rcases h with ⟨e', he', hc', b, hb, hbe⟩ | ⟨hall, _⟩
      · have : e' = e := by
          exact List.inj_on_of_nodup_map hkeys he' hmem (by rw [hc', hcountry])
        rw [this] at hb
        exact ⟨b, hb, hbe⟩
      · exact absurd hcountry (hall e hmem)

end ClaimC8

section Fixtures

/-- A concrete order-0 item with coordinates, used by concrete runs. -/
def exA : Item :=
  { id := 1, order_index := 0, is_starting_point := true, title := "A",
    description := none, start_time := some ⟨14, 30⟩, end_time := none,
    duration_minutes := some 60, item_type := "activity", status := "planned",
    cost := none, notes := none, distance_from_previous_meters := none,
    distance_from_previous_text := none, travel_time_from_previous_seconds := none,
    travel_time_from_previous_text := none, transport_mode := none,
    latitude := some 1, longitude := some 1, created_at := 0, updated_at := 0 }

/-- A concrete order-1 item with coordinates and no pinned mode. -/
def exB : Item :=
  { exA with
    id := 2, order_index := 1, is_starting_point := false, title := "B",
    duration_minutes := some 90, travel_time_from_previous_seconds := some 300,
    latitude := some 2, longitude := some 2 }

/-- A concrete order-2 item with coordinates. -/
def exC : Item :=
  { exA with
    id := 3, order_index := 2, is_starting_point := false, title := "C",
    duration_minutes := some 30, travel_time_from_previous_seconds := some 600,
    start_time := some ⟨16, 0⟩,
    latitude := some 3, longitude := some 3 }

/-- A trip context with no destination row. -/
def exCtx : Ctx := ⟨none⟩

/-- A resolver behaviour that always answers with a 12-minute route. -/
def exBehSlow : Behaviour := fun _ _ => .ok (some ⟨9000, "9 km", 720, "12 min"⟩)

/-- A resolver behaviour that always answers with a 20-minute route. -/
def exBehFast : Behaviour := fun _ _ => .ok (some ⟨5000, "5 km", 1200, "20 min"⟩)

/-- A resolver behaviour whose first call fails (resolves with null) and
whose later calls succeed — a transient outage between the two queries of
one annotation. -/
def exBehMixed : Behaviour := fun i _ =>
  if i = 0 then .ok none else .ok (some ⟨7000, "7 km", 900, "15 min"⟩)

end Fixtures

section ClaimC10

/-- A three-item itinerary with contiguous order positions. -/
def c10ExampleDb : List Item := [exA, exB, exC]

/-- Claim C10: `deleteItineraryItem(id)` only removes the rows with that
id: it is defined (completes without error) even when no row matches, in
which case the table is unchanged; every other row survives with all
fields intact; the surviving rows keep their relative order; and deleting
a middle item leaves a non-contiguous gap in the order positions, with no
reindexing, re-annotation (the operation consults no resolver), or
cascade. -/
theorem c10_delete_frame :
    (∀ (db : List Item) (itemId : Nat),
      ((∀ it ∈ db, it.id ≠ itemId) → deleteItineraryItem db itemId = db) ∧
      (∀ it ∈ db, it.id ≠ itemId → it ∈ deleteItineraryItem db itemId) ∧
      (deleteItineraryItem db itemId).Sublist db) ∧
    (deleteItineraryItem c10ExampleDb 2).map
        (fun it => (it.id, it.order_index, it.is_starting_point, it.start_time)) =
      [(1, 0, true, some ⟨14, 30⟩), (3, 2, false, some ⟨16, 0⟩)] := by
  constructor
  · intro db itemId
    refine ⟨fun h => ?_, fun it hit hne => ?_, ?_⟩
    · apply List.filter_eq_self.mpr
      intro a ha
      simpa using h a ha
    · apply List.mem_filter.mpr
      exact ⟨hit, by simpa using hne⟩
    · exact List.filter_sublist db
  · decide

/-- Witness for C10: deleting an id that is absent leaves the concrete
table unchanged. -/
theorem c10_delete_frame_witness :
    (∀ it ∈ c10ExampleDb, it.id ≠ 7) ∧ deleteItineraryItem c10ExampleDb 7 = c10ExampleDb :=
  ⟨by decide, (c10_delete_frame.1 c10ExampleDb 7).1 (by decide)⟩

end ClaimC10

section ClaimC9

/-- A patch that carries only the `notes` field. -/
def notesPatch (note : String) : Patch :=
  ⟨none, none, none, none, none, none, none, none, some note, none⟩

/-- Claim C9: editing only the `notes` field of an item that carries a
user-pinned transport mode issues no resolver query (the Distance
Annotator is not invoked), triggers no time cascade, and changes nothing
except that item's `notes` and `updated_at` — every other field of the
item and every other item are untouched. -/
theorem c9_notes_only_edit_frame (ctx : Ctx) (beh : Behaviour) (idx : Nat)
    (db : List Item) (itemId : Nat) (note : String) (now : Nat) (cur : Item) (m : Mode)
    (hfind : db.find? (fun it => it.id = itemId) = some cur)
    (hpin : cur.transport_mode = some m) :
    updateItineraryItem ctx beh idx db itemId (notesPatch note) now =
      some (db.map (fun it => if it.id = itemId then
              { it with notes := some note, updated_at := now } else it),
            { cur with notes := some note, updated_at := now }, []) := by
  unfold updateItineraryItem
  rw [hfind]
  simp [patchNonempty, notesPatch, applyPatch, updateById]

/-- Witness for C9 on a concrete pinned item. -/
theorem c9_notes_only_edit_frame_witness :
    ([{ exB with transport_mode := some Mode.driving }].find?
        (fun it => it.id = 2) = some { exB with transport_mode := some Mode.driving }) ∧
    ({ exB with transport_mode := some Mode.driving }).transport_mode = some Mode.driving ∧
    updateItineraryItem exCtx exBehFast 0 [{ exB with transport_mode := some Mode.driving }]
        2 (notesPatch "lunch") 5 =
      some ([{ exB with transport_mode := some Mode.driving }].map
              (fun it => if it.id = 2 then
                { it with notes := some "lunch", updated_at := 5 } else it),
            { { exB with transport_mode := some Mode.driving } with
                notes := some "lunch", updated_at := 5 }, []) :=
  ⟨by decide, rfl,
   c9_notes_only_edit_frame exCtx exBehFast 0 _ 2 "lunch" 5 _ Mode.driving (by decide) rfl⟩

end ClaimC9

section ClaimC5

attribute [local semireducible] Rat.mul Rat.inv

/-- Claim C5 counterexample: for an unpinned item whose preliminary
driving query reports 12 minutes in a non-dense destination, the chosen
mode is driving, and the resolver is still queried a second time with
that same driving query — the second query is not skipped, so two
distance computations with the final mode are performed. -/
theorem c5_double_query_counterexample :
    (calculateDistancesForItem exCtx exBehSlow 0 [exA, exB] 2).2 =
      [((1, 1), (2, 2), Mode.driving), ((1, 1), (2, 2), Mode.driving)] := by
  decide

/-- Claim C5 as amended: a user-pinned mode is used directly, with a
single resolver query carrying the pinned mode and no classification
query; otherwise a preliminary driving query feeds the classifier
together with the destination-density flag, and the resolver is then
always queried a second time with the chosen mode — even when that mode
is again driving — after which the final result's distance meters and
text, travel-time seconds and text, and the chosen mode are persisted
onto the item. -/
theorem c5_annotator_algorithm_amended (ctx : Ctx) (beh : Behaviour) (idx : Nat)
    (db : List Item) (itemId : Nat) (cur prev : Item) (pc cc : Coord)
    (hfind : db.find? (fun it => it.id = itemId) = some cur)
    (hprev : db.find? (fun it => it.order_index = cur.order_index - 1) = some prev)
    (hclat : truthyQ cur.latitude = some cc.1) (hclng : truthyQ cur.longitude = some cc.2)
    (hplat : truthyQ prev.latitude = some pc.1) (hplng : truthyQ prev.longitude = some pc.2) :
    (∀ m, cur.transport_mode = some m →
      (calculateDistancesForItem ctx beh idx db itemId).2 = [(pc, cc, m)] ∧
      ∀ fr, beh idx (pc, cc, m) = .ok (some fr) →
        (calculateDistancesForItem ctx beh idx db itemId).1 =
          updateById db itemId (setDistFields fr (some m))) ∧
    (cur.transport_mode = none →
      ∀ r, beh idx (pc, cc, Mode.driving) = .ok (some r) →
        ∀ big, (match ctx.trip with
                | some ck => isBigCity ck.1 ck.2
                | none => false) = big →
        (calculateDistancesForItem ctx beh idx db itemId).2 =
          [(pc, cc, Mode.driving), (pc, cc, determineTransportMode (r.duration : ℚ) big)] ∧
        ∀ fr, beh (idx + 1) (pc, cc, determineTransportMode (r.duration : ℚ) big) = .ok (some fr) →
          (calculateDistancesForItem ctx beh idx db itemId).1 =
            updateById db itemId
              (setDistFields fr (some (determineTransportMode (r.duration : ℚ) big)))) := by
  constructor
  · intro m hm
    simp only [calculateDistancesForItem, hfind, hprev, distDecision, hclat, hclng,
      hplat, hplng, hm, Prod.mk.eta]
    cases hb : beh idx (pc, cc, m) with
    | error e =>
      exact ⟨rfl, fun fr hfr => by simp at hfr⟩
    | ok r =>
      cases r with
      | none =>
        exact ⟨rfl, fun fr hfr => by simp at hfr⟩
      | some fr0 =>
        refine ⟨rfl, fun fr hfr => ?_⟩
        simp only [Except.ok.injEq, Option.some.injEq] at hfr
        subst hfr
        rfl
  · intro hm r hr big hbig
    simp only [calculateDistancesForItem, hfind, hprev, distDecision, hclat, hclng,
      hplat, hplng, hm, hbig, Prod.mk.eta, hr, Option.map_some', Option.getD_some]
    cases hb : beh (idx + 1) (pc, cc, determineTransportMode (r.duration : ℚ) big) with
    | error e =>
      exact ⟨rfl, fun fr hfr => by simp at hfr⟩
    | ok r2 =>
      cases r2 with
      | none =>
        exact ⟨rfl, fun fr hfr => by simp at hfr⟩
      | some fr0 =>
        refine ⟨rfl, fun fr hfr => ?_⟩
        simp only [Except.ok.injEq, Option.some.injEq] at hfr
        subst hfr
        rfl

/-- Witness for C5 on a concrete pinned item: exactly one query with the
pinned transit mode. -/
theorem c5_annotator_algorithm_amended_witness :
    ([exA, { exB with transport_mode := some Mode.transit }].find?
        (fun it => it.id = 2) = some { exB with transport_mode := some Mode.transit }) ∧
    (calculateDistancesForItem exCtx exBehSlow 0
        [exA, { exB with transport_mode := some Mode.transit }] 2).2 =
      [((1, 1), (2, 2), Mode.transit)] :=
  ⟨by decide,
   ((c5_annotator_algorithm_amended exCtx exBehSlow 0
      [exA, { exB with transport_mode := some Mode.transit }] 2
      { exB with transport_mode := some Mode.transit } exA (1, 1) (2, 2)
      (by decide) (by decide) (by decide) (by decide) (by decide) (by decide)).1
     Mode.transit rfl).1⟩

end ClaimC5

section ClaimC4

/-- Claim C4 counterexample: with a behaviour whose preliminary query
fails (resolves with null) while the final query succeeds — a transient
outage between the two calls of one annotation — the item's distance
fields are overwritten with the final result and its transport mode is
left unset, so a resolver failure does not leave the fields unchanged. -/
theorem c4_failure_persists_counterexample :
    exBehMixed 0 ((1, 1), (2, 2), Mode.driving) = .ok none ∧
    (calculateDistancesForItem exCtx exBehMixed 0 [exA, exB] 2).1.map
        (fun it => (it.id, it.distance_from_previous_meters, it.transport_mode)) =
      [(1, none, none), (2, some 7000, none)] ∧
    exB.distance_from_previous_meters = none := by
  refine ⟨rfl, by decide, by decide⟩

/-- Claim C4 as amended: the annotation is total over every resolver
behaviour (the embedding returns a state even for throwing behaviours —
nothing propagates); a missing item, a missing predecessor, or a falsy
coordinate make it a silent no-op; and a behaviour that answers every
query with a thrown error or with no result leaves the table unchanged.
Only the combination of a failed preliminary query with a succeeding
final query (possible for a stateful resolver) writes fields, with the
transport mode left unset. -/
theorem c4_best_effort_amended (ctx : Ctx) (beh : Behaviour) (idx : Nat)
    (db : List Item) (itemId : Nat) :
    (db.find? (fun it => it.id = itemId) = none →
      calculateDistancesForItem ctx beh idx db itemId = (db, [])) ∧
    (∀ cur, db.find? (fun it => it.id = itemId) = some cur →
      db.find? (fun it => it.order_index = cur.order_index - 1) = none →
      calculateDistancesForItem ctx beh idx db itemId = (db, [])) ∧
    (∀ cur prev, db.find? (fun it => it.id = itemId) = some cur →
      db.find? (fun it => it.order_index = cur.order_index - 1) = some prev →
      (truthyQ cur.latitude = none ∨ truthyQ cur.longitude = none ∨
       truthyQ prev.latitude = none ∨ truthyQ prev.longitude = none) →
      calculateDistancesForItem ctx beh idx db itemId = (db, [])) ∧
    ((∀ j q, beh j q = .error () ∨ beh j q = .ok none) →
      (calculateDistancesForItem ctx beh idx db itemId).1 = db) := by
  refine ⟨fun h => ?_, fun cur hc hp => ?_, fun cur prev hc hp hco => ?_, fun hfail => ?_⟩
  · simp only [calculateDistancesForItem, h]
  · simp only [calculateDistancesForItem, hc, hp]
  · have hd : distDecision ctx beh idx cur prev.latitude prev.longitude = (none, []) := by
      unfold distDecision
      rcases hco with h | h | h | h
      · rw [h]
      · rw [h]
        cases truthyQ cur.latitude <;> rfl
      · rw [h]
        cases truthyQ cur.latitude <;> cases truthyQ cur.longitude <;> rfl
      · rw [h]
        cases truthyQ cur.latitude <;> cases truthyQ cur.longitude <;>
          cases truthyQ prev.latitude <;> rfl
    simp only [calculateDistancesForItem, hc, hp, hd, applyW]
  · cases hc : db.find? (fun it => it.id = itemId) with
    | none => simp only [calculateDistancesForItem, hc]
    | some cur =>
      cases hp : db.find? (fun it => it.order_index = cur.order_index - 1) with
      | none => simp only [calculateDistancesForItem, hc, hp]
      | some prev =>
        simp only [calculateDistancesForItem, hc, hp,
          distDecision_allfail ctx beh idx cur prev.latitude prev.longitude hfail, applyW]

/-- Witness for C4: the all-failing behaviour leaves a concrete table
unchanged. -/
theorem c4_best_effort_amended_witness :
    (∀ (j : Nat) (q : Query), (fun (_ : Nat) (_ : Query) => (.error () : Except Unit (Option RouteResult))) j q = .error () ∨
       (fun (_ : Nat) (_ : Query) => (.error () : Except Unit (Option RouteResult))) j q = .ok none) ∧
    (calculateDistancesForItem exCtx (fun _ _ => .error ()) 0 [exA, exB] 2).1 = [exA, exB] :=
  ⟨fun _ _ => Or.inl rfl,
   (c4_best_effort_amended exCtx (fun _ _ => .error ()) 0 [exA, exB] 2).2.2.2
     (fun _ _ => Or.inl rfl)⟩

end ClaimC4

section ClaimC6

attribute [local semireducible] Rat.mul Rat.inv

/-- The patch of the C6 counterexample: one edit changing both the
transport mode and the duration. -/
def c6Patch : Patch :=
  ⟨none, none, none, none, none, some 120, none, none, none, some Mode.driving⟩

/-- Claim C6 counterexample: a single patch on the order-1 item of a
three-item itinerary that changes both the transport mode and the
duration takes the annotator branch and returns the reloaded item
without ever running the time cascade: the order-2 item keeps its stale
start time 16:00, while the cascade from order position 1 that the claim
mandates would have moved it to 16:40. -/
theorem c6_cascade_skipped_counterexample :
    (updateItineraryItem exCtx exBehSlow 0 [exA, exB, exC] 2 c6Patch 9).map
        (fun res => res.1.map (fun it => (it.id, it.start_time))) =
      some [(1, some ⟨14, 30⟩), (2, some ⟨14, 30⟩), (3, some ⟨16, 0⟩)] ∧
    (recalculateTimesFromItem
        (calculateDistancesForItem exCtx exBehSlow 0
          (updateById [exA, exB, exC] 2 (applyPatch c6Patch 9)) 2).1
        1).map (fun it => (it.id, it.start_time)) =
      [(1, some ⟨14, 30⟩), (2, some ⟨14, 30⟩), (3, some ⟨16, 40⟩)] ∧
    ((⟨16, 0⟩ : HM) ≠ ⟨16, 40⟩) := by
  refine ⟨by decide, by decide, by decide⟩

/-- Claim C6 as amended: `updateItineraryItem` persists the field
changes; when the patch contains a transport mode and the updated row's
order position is positive, the Distance Annotator is re-run (honoring
the pinned mode) and the reloaded item is returned — without running the
Time Cascade Recalculator, even when the same patch also changes the
start time or duration; only otherwise does a patch containing a start
time or duration run the cascade from the item's order position. -/
theorem c6_edit_state_machine_amended (ctx : Ctx) (beh : Behaviour) (idx : Nat)
    (db : List Item) (itemId : Nat) (p : Patch) (now : Nat) (cur : Item)
    (hfind : db.find? (fun it => it.id = itemId) = some cur)
    (hne : patchNonempty p = true) :
    (p.transportMode.isSome = true → 0 < (applyPatch p now cur).order_index →
      ∀ refreshed,
        (calculateDistancesForItem ctx beh idx (updateById db itemId (applyPatch p now))
            itemId).1.find? (fun it => it.id = itemId) = some refreshed →
        updateItineraryItem ctx beh idx db itemId p now =
          some ((calculateDistancesForItem ctx beh idx
                  (updateById db itemId (applyPatch p now)) itemId).1,
                refreshed,
                (calculateDistancesForItem ctx beh idx
                  (updateById db itemId (applyPatch p now)) itemId).2)) ∧
    ((p.transportMode.isSome = false ∨ (applyPatch p now cur).order_index ≤ 0) →
      (p.startTime.isSome = true ∨ p.durationMinutes.isSome = true) →
      updateItineraryItem ctx beh idx db itemId p now =
        some (recalculateTimesFromItem (updateById db itemId (applyPatch p now))
                (applyPatch p now cur).order_index.toNat,
              applyPatch p now cur, [])) ∧
    ((p.transportMode.isSome = false ∨ (applyPatch p now cur).order_index ≤ 0) →
      p.startTime.isSome = false → p.durationMinutes.isSome = false →
      updateItineraryItem ctx beh idx db itemId p now =
        some (updateById db itemId (applyPatch p now), applyPatch p now cur, [])) := by
  refine ⟨fun htm hord refreshed href => ?_, fun hnotm htime => ?_, fun hnotm hst hdu => ?_⟩
  · simp only [updateItineraryItem, hne, Bool.true_eq_false, if_false, hfind, htm,
      decide_eq_true hord, Bool.and_self, if_true, href]
  · have hcond : (p.transportMode.isSome && decide (0 < (applyPatch p now cur).order_index)) = false := by
      rcases hnotm with h | h
      · simp [h]
      · simp [decide_eq_false (not_lt.mpr h)]
    have htime' : (p.startTime.isSome || p.durationMinutes.isSome) = true := by
      rcases htime with h | h <;> simp [h]
    simp only [updateItineraryItem, hne, Bool.true_eq_false, if_false, hfind, hcond,
      htime', if_true, Bool.false_eq_true]
  · have hcond : (p.transportMode.isSome && decide (0 < (applyPatch p now cur).order_index)) = false := by
      rcases hnotm with h | h
      · simp [h]
      · simp [decide_eq_false (not_lt.mpr h)]
    simp only [updateItineraryItem, hne, Bool.true_eq_false, if_false, hfind, hcond,
      hst, hdu, Bool.or_self, if_false, Bool.false_eq_true]

/-- Witness for C6 on a concrete duration-only patch: the cascade branch
is taken. -/
theorem c6_edit_state_machine_amended_witness :
    ([exA, exB, exC].find? (fun it => it.id = 2) = some exB) ∧
    patchNonempty ⟨none, none, none, none, none, some 45, none, none, none, none⟩ = true ∧
    updateItineraryItem exCtx exBehSlow 0 [exA, exB, exC] 2
        ⟨none, none, none, none, none, some 45, none, none, none, none⟩ 9 =
      some (recalculateTimesFromItem
              (updateById [exA, exB, exC] 2
                (applyPatch ⟨none, none, none, none, none, some 45, none, none, none, none⟩ 9))
              (applyPatch ⟨none, none, none, none, none, some 45, none, none, none, none⟩ 9 exB).order_index.toNat,
            applyPatch ⟨none, none, none, none, none, some 45, none, none, none, none⟩ 9 exB, []) :=
  ⟨by decide, by decide,
   (c6_edit_state_machine_amended exCtx exBehSlow 0 [exA, exB, exC] 2
      ⟨none, none, none, none, none, some 45, none, none, none, none⟩ 9 exB
      (by decide) (by decide)).2.1 (Or.inl rfl) (Or.inr rfl)⟩

end ClaimC6

section ClaimC1

/-- The in-memory list of local item copies produced by the cascade loop
(`cascadeDb` additionally writes each copy through to the table). -/
def cascadeGo (prev : Item) : List Item → List Item
  | [] => []
  | cur :: rest =>
    match prev.start_time with
    | none => cur :: cascadeGo cur rest
    | some ps =>
      let cur' := stepItem ps prev cur
      cur' :: cascadeGo cur' rest

/-- An `UPDATE ... WHERE id` on a table whose target id occurs exactly at
the distinguished middle row rewrites just that row. -/
theorem updateById_middle (A B : List Item) (x : Item) (f : Item → Item)
    (hA : ∀ a ∈ A, a.id ≠ x.id) (hB : ∀ b ∈ B, b.id ≠ x.id) :
    updateById (A ++ x :: B) x.id f = A ++ f x :: B := by
  unfold updateById
  rw [List.map_append, List.map_cons]
  rw [map_pointwise_id (fun a ha => by rw [if_neg (hA a ha)])]
  rw [if_pos rfl]
  rw [map_pointwise_id (fun b hb => by rw [if_neg (hB b hb)])]

/-- Distinctness of row ids, split at a distinguished row. -/
theorem nodup_ids_parts (A B : List Item) (x : Item)
    (h : ((A ++ x :: B).map Item.id).Nodup) :
    (∀ a ∈ A, a.id ≠ x.id) ∧ (∀ b ∈ B, b.id ≠ x.id) := by
  rw [List.map_append, List.map_cons, List.nodup_append] at h
  obtain ⟨h1, h2, hdisj⟩ := h
  constructor
  · intro a ha hax
    exact hdisj (List.mem_map_of_mem Item.id ha) (by rw [hax]; exact List.mem_cons_self _ _)
  · intro b hb hbx
    rcases List.nodup_cons.mp h2 with ⟨hx, _⟩
    exact hx (by rw [← hbx]; exact List.mem_map_of_mem Item.id hb)

/-- The table-writing cascade agrees with the in-memory cascade when row
ids are distinct: each write lands exactly on the row whose local copy
was updated. -/
theorem cascadeDb_eq_go (l : List Item) : ∀ (A : List Item) (prev : Item),
    ((A ++ prev :: l).map Item.id).Nodup →
    cascadeDb (A ++ prev :: l) prev l = A ++ prev :: cascadeGo prev l := by
  induction l with
  | nil =>
    intro A prev _
    rfl
  | cons cur rest ih =>
    intro A prev h
    have hassoc : A ++ prev :: cur :: rest = (A ++ [prev]) ++ cur :: rest := by simp
    cases hps : prev.start_time with
    | none =>
      show cascadeDb (A ++ prev :: cur :: rest) prev (cur :: rest) = _
      simp only [cascadeDb, hps]
      rw [hassoc, ih (A ++ [prev]) cur (by rw [← hassoc]; exact h)]
      simp [cascadeGo, hps]
    | some ps =>
      simp only [cascadeDb, hps]
      obtain ⟨hA, hB⟩ := nodup_ids_parts (A ++ [prev]) rest cur (by rw [← hassoc]; exact h)
      have hmid : updateTimesById (A ++ prev :: cur :: rest) (stepItem ps prev cur).id
          (stepItem ps prev cur).start_time (stepItem ps prev cur).end_time =
          (A ++ [prev]) ++ stepItem ps prev cur :: rest := by
        rw [hassoc]
        unfold updateTimesById
        rw [show (stepItem ps prev cur).id = cur.id from rfl]
        rw [updateById_middle (A ++ [prev]) rest cur _ hA hB]
        rfl
      rw [hmid]
      have hids' : (((A ++ [prev]) ++ stepItem ps prev cur :: rest).map Item.id).Nodup := by
        have heq : ((A ++ [prev]) ++ stepItem ps prev cur :: rest).map Item.id =
            ((A ++ [prev]) ++ cur :: rest).map Item.id := by
          simp [List.map_append]
          rfl
        rw [heq, ← hassoc]
        exact h
      rw [ih (A ++ [prev]) (stepItem ps prev cur) hids']
      simp [cascadeGo, hps]

/-- The relation the cascade establishes between consecutive items of the
recomputed list: the later item's start time is the earlier one's start
plus its duration (60 when the stored duration is null or zero) plus the
later item's stored travel time rounded up to minutes, all wrapped the
way the source formats times; and the later item's end time is its start
plus its duration whenever that duration is set and nonzero. -/
def cascadeRel (a b : Item) : Prop :=
  ∃ sa, a.start_time = some sa ∧
    b.start_time = some (HM.ofTotal (sa.toMinutes + jsOrNat a.duration_minutes 60 +
      ceil60 (jsOrNat b.travel_time_from_previous_seconds 0))) ∧
    ∀ d, b.duration_minutes = some d → d ≠ 0 →
      b.end_time = some (HM.ofTotal ((HM.ofTotal (sa.toMinutes + jsOrNat a.duration_minutes 60 +
        ceil60 (jsOrNat b.travel_time_from_previous_seconds 0))).toMinutes + d))

/-- Every adjacent pair of the in-memory cascade result satisfies the
cascade relation, provided the carried item has a start time. -/
theorem chain_cascadeGo (l : List Item) : ∀ (prev : Item) (ps : HM),
    prev.start_time = some ps →
    List.Chain' cascadeRel (prev :: cascadeGo prev l) := by
  induction l with
  | nil =>
    intro prev ps hps
    simp [cascadeGo]
  | cons cur rest ih =>
    intro prev ps hps
    simp only [cascadeGo, hps]
    rw [List.chain'_cons]
    constructor
    · refine ⟨ps, hps, rfl, ?_⟩
      intro d hd hd0
      have hcd : cur.duration_minutes = some d := hd
      simp only [stepItem, hcd]
      rw [if_neg hd0]
    · exact ih (stepItem ps prev cur) _ rfl

/-- The cascade keeps the number of items. -/
theorem cascadeGo_length (l : List Item) : ∀ prev, (cascadeGo prev l).length = l.length := by
  induction l with
  | nil => intro prev; rfl
  | cons cur rest ih =>
    intro prev
    cases hps : prev.start_time with
    | none => simp [cascadeGo, hps, ih]
    | some ps => simp [cascadeGo, hps, ih]

/-- Claim C1 counterexample: on an itinerary whose first item has stored
duration 0 (a set value, not null), the cascade uses the default 60 in
place of the zero — the second item starts at 10:00 although the claim's
formula `start[0] + duration[0] + ceil(travel/60)` yields 09:00 — and the
first item's end time is cleared rather than set to 09:00 plus its
duration. -/
theorem c1_zero_duration_counterexample :
    (recalculateTimesFromItem [{ exA with duration_minutes := some 0 }, exB] 0).map
        (fun it => it.start_time) = [some ⟨9, 0⟩, some ⟨10, 5⟩] ∧
    (recalculateTimesFromItem [{ exA with duration_minutes := some 0 }, exB] 0).map
        (fun it => it.end_time) = [none, some ⟨11, 35⟩] ∧
    HM.ofTotal ((9 * 60 + 0) + ceil60 300) = ⟨9, 5⟩ ∧
    ((⟨10, 5⟩ : HM) ≠ ⟨9, 5⟩) := by
  refine ⟨by decide, by decide, by decide, by decide⟩

/-- Claim C1 as amended: on an itinerary with at least two items (rows
given in day order, with distinct ids), `recalculateFrom(0)` forces the
order-0 item to start at 09:00 regardless of prior state, sets its end
time to 09:00 plus its duration whenever that duration is set and
nonzero, and gives every later item a start time equal to its
predecessor's new start plus the predecessor's duration — defaulting to
60 when the stored duration is null OR ZERO — plus the item's stored
travel time (0 when unset) rounded up to whole minutes, with the hour
component wrapped modulo 24; its end time is its new start plus its own
duration whenever that duration is set and nonzero. -/
theorem c1_time_cascade_amended (s : List Item)
    (hsort : itemsByDay s = s) (hids : (s.map Item.id).Nodup) (hn : 2 ≤ s.length) :
    (recalculateTimesFromItem s 0).length = s.length ∧
    (∀ h0 : 0 < (recalculateTimesFromItem s 0).length,
      ((recalculateTimesFromItem s 0).get ⟨0, h0⟩).start_time = some ⟨9, 0⟩ ∧
      ∀ d, ((recalculateTimesFromItem s 0).get ⟨0, h0⟩).duration_minutes = some d → d ≠ 0 →
        ((recalculateTimesFromItem s 0).get ⟨0, h0⟩).end_time = some (HM.ofTotal (9 * 60 + d))) ∧
    ∀ (i : Nat) (hi : i + 1 < (recalculateTimesFromItem s 0).length),
      cascadeRel ((recalculateTimesFromItem s 0).get ⟨i, Nat.lt_of_succ_lt hi⟩)
        ((recalculateTimesFromItem s 0).get ⟨i + 1, hi⟩) := by
  cases s with
  | nil => simp at hn
  | cons first rest =>
    have hout : recalculateTimesFromItem (first :: rest) 0 =
        anchorItem first :: cascadeGo (anchorItem first) rest := by
      unfold recalculateTimesFromItem
      rw [hsort]
      simp only [if_pos rfl]
      have hanch : updateTimesById (first :: rest) (anchorItem first).id
          (anchorItem first).start_time (anchorItem first).end_time =
          anchorItem first :: rest := by
        unfold updateTimesById
        rw [show (anchorItem first).id = first.id from rfl]
        have := updateById_middle [] rest first
          (fun it => { it with start_time := (anchorItem first).start_time,
                               end_time := (anchorItem first).end_time })
          (by intro a ha; simp at ha)
          (nodup_ids_parts [] rest first hids).2
        simpa [anchorItem] using this
      rw [hanch]
      exact cascadeDb_eq_go rest [] (anchorItem first)
        (by simpa using hids)
    rw [hout]
    refine ⟨by simp [cascadeGo_length], fun h0 => ⟨rfl, fun d hd hd0 => ?_⟩, fun i hi => ?_⟩
    · have hfd : first.duration_minutes = some d := hd
      show (anchorItem first).end_time = _
      simp only [anchorItem, hfd]
      rw [if_neg hd0]
    · have hchain := chain_cascadeGo rest (anchorItem first) ⟨9, 0⟩ rfl
      exact List.chain'_iff_get.mp hchain i (by simpa using hi)

/-- Witness for C1 on a concrete two-item itinerary. -/
theorem c1_time_cascade_amended_witness :
    (itemsByDay [exA, exB] = [exA, exB] ∧ (([exA, exB].map Item.id).Nodup) ∧
      2 ≤ ([exA, exB] : List Item).length) ∧
    ((recalculateTimesFromItem [exA, exB] 0).length = 2 ∧
      ∀ (i : Nat) (hi : i + 1 < (recalculateTimesFromItem [exA, exB] 0).length),
        cascadeRel ((recalculateTimesFromItem [exA, exB] 0).get ⟨i, Nat.lt_of_succ_lt hi⟩)
          ((recalculateTimesFromItem [exA, exB] 0).get ⟨i + 1, hi⟩)) :=
  ⟨⟨by decide, by decide, by decide⟩,
   ⟨(c1_time_cascade_amended [exA, exB] (by decide) (by decide) (by decide)).1,
    (c1_time_cascade_amended [exA, exB] (by decide) (by decide) (by decide)).2.2⟩⟩

end ClaimC1

section CorePreservation

/-- Row transformations that keep a row's identity, order position,
starting-point flag, and coordinates (the annotator only rewrites
distance fields; the cascade only rewrites times). -/
def PreservesCore (F : Item → Item) : Prop :=
  ∀ r : Item, (F r).id = r.id ∧ (F r).order_index = r.order_index ∧
    (F r).is_starting_point = r.is_starting_point ∧
    (F r).latitude = r.latitude ∧ (F r).longitude = r.longitude

theorem preservesCore_id : PreservesCore id := fun _ => ⟨rfl, rfl, rfl, rfl, rfl⟩

theorem preservesCore_comp {F G : Item → Item}
    (hF : PreservesCore F) (hG : PreservesCore G) : PreservesCore (G ∘ F) := by
  intro r
  obtain ⟨f1, f2, f3, f4, f5⟩ := hF r
  obtain ⟨g1, g2, g3, g4, g5⟩ := hG (F r)
  exact ⟨g1.trans f1, g2.trans f2, g3.trans f3, g4.trans f4, g5.trans f5⟩

/-- Applying a pending annotator write is a core-preserving map fixing
all rows with a different id. -/
theorem applyW_map (db : List Item) (tid : Nat) (w : Option (RouteResult × Option Mode)) :
    ∃ F, applyW db tid w = db.map F ∧ PreservesCore F ∧ ∀ r : Item, r.id ≠ tid → F r = r := by
  cases w with
  | none => exact ⟨id, by simp [applyW], preservesCore_id, fun _ _ => rfl⟩
  | some p =>
    refine ⟨fun it => if it.id = tid then setDistFields p.1 p.2 it else it, rfl, ?_, ?_⟩
    · intro r
      by_cases hr : r.id = tid <;> simp [hr, setDistFields]
    · intro r hr
      show (if r.id = tid then setDistFields p.1 p.2 r else r) = r
      rw [if_neg hr]

/-- `calculateDistancesForItem` is a core-preserving map of the table
that fixes every row whose id differs from the target's. -/
theorem calcDist_map (ctx : Ctx) (beh : Behaviour) (idx : Nat) (db : List Item) (i : Nat) :
    ∃ F, (calculateDistancesForItem ctx beh idx db i).1 = db.map F ∧ PreservesCore F ∧
      ∀ r : Item, r.id ≠ i → F r = r := by
  cases hc : db.find? (fun it => it.id = i) with
  | none =>
    exact ⟨id, by simp [calculateDistancesForItem, hc], preservesCore_id, fun _ _ => rfl⟩
  | some cur =>
    cases hp : db.find? (fun it => it.order_index = cur.order_index - 1) with
    | none =>
      exact ⟨id, by simp [calculateDistancesForItem, hc, hp], preservesCore_id, fun _ _ => rfl⟩
    | some prev =>
      obtain ⟨F, hF, hcF, huF⟩ :=
        applyW_map db i (distDecision ctx beh idx cur prev.latitude prev.longitude).1
      exact ⟨F, by simp only [calculateDistancesForItem, hc, hp]; exact hF, hcF, huF⟩

/-- The annotation loop is a core-preserving map fixing every row whose
id is outside the processed list. -/
theorem recalcDistGo_map (ctx : Ctx) (beh : Behaviour) (L : List Nat) :
    ∀ (idx : Nat) (db : List Item),
    ∃ F, (recalcDistGo ctx beh idx db L).1 = db.map F ∧ PreservesCore F ∧
      ∀ r : Item, r.id ∉ L → F r = r := by
  induction L with
  | nil =>
    intro idx db
    exact ⟨id, by simp [recalcDistGo], preservesCore_id, fun _ _ => rfl⟩
  | cons i is ih =>
    intro idx db
    obtain ⟨F1, h1, hc1, hu1⟩ := calcDist_map ctx beh idx db i
    obtain ⟨F2, h2, hc2, hu2⟩ :=
      ih (idx + (calculateDistancesForItem ctx beh idx db i).2.length)
        ((calculateDistancesForItem ctx beh idx db i).1)
    refine ⟨F2 ∘ F1, ?_, preservesCore_comp hc1 hc2, ?_⟩
    · simp only [recalcDistGo]
      rw [h2, h1, List.map_map]
    · intro r hr
      have hri : r.id ≠ i := fun he => hr (by simp [he])
      have h1r : F1 r = r := hu1 r hri
      show F2 (F1 r) = r
      rw [h1r]
      exact hu2 r (fun he => hr (List.mem_cons_of_mem _ he))

/-- The table-writing cascade loop is a core-preserving map. -/
theorem cascadeDb_map (l : List Item) : ∀ (db : List Item) (prev : Item),
    ∃ F, cascadeDb db prev l = db.map F ∧ PreservesCore F := by
  induction l with
  | nil =>
    intro db prev
    exact ⟨id, by simp [cascadeDb], preservesCore_id⟩
  | cons cur rest ih =>
    intro db prev
    cases hps : prev.start_time with
    | none =>
      simp only [cascadeDb, hps]
      exact ih db cur
    | some ps =>
      simp only [cascadeDb, hps]
      obtain ⟨F2, h2, hc2⟩ :=
        ih (updateTimesById db (stepItem ps prev cur).id
          (stepItem ps prev cur).start_time (stepItem ps prev cur).end_time)
          (stepItem ps prev cur)
      refine ⟨F2 ∘ (fun it => if it.id = (stepItem ps prev cur).id then
          { it with start_time := (stepItem ps prev cur).start_time,
                    end_time := (stepItem ps prev cur).end_time } else it), ?_, ?_⟩
      · rw [h2]
        unfold updateTimesById updateById
        rw [List.map_map]
      · refine preservesCore_comp ?_ hc2
        intro r
        by_cases hr : r.id = (stepItem ps prev cur).id <;> simp [hr]

/-- The time cascade is a core-preserving map of the table. -/
theorem recalculateTimesFromItem_map (db : List Item) (k : Nat) :
    ∃ F, recalculateTimesFromItem db k = db.map F ∧ PreservesCore F := by
  by_cases hk : k = 0
  · cases hby : itemsByDay db with
    | nil =>
      exact ⟨id, by simp [recalculateTimesFromItem, hk, hby], preservesCore_id⟩
    | cons first rest =>
      obtain ⟨F2, h2, hc2⟩ := cascadeDb_map rest
        (updateTimesById db (anchorItem first).id
          (anchorItem first).start_time (anchorItem first).end_time)
        (anchorItem first)
      refine ⟨F2 ∘ (fun it => if it.id = (anchorItem first).id then
          { it with start_time := (anchorItem first).start_time,
                    end_time := (anchorItem first).end_time } else it), ?_, ?_⟩
      · simp only [recalculateTimesFromItem, hk, hby, if_pos]
        rw [h2]
        unfold updateTimesById updateById
        rw [List.map_map]
      · refine preservesCore_comp ?_ hc2
        intro r
        by_cases hr : r.id = (anchorItem first).id <;> simp [hr]
  · cases hby : (itemsByDay db).drop k with
    | nil =>
      exact ⟨id, by simp [recalculateTimesFromItem, if_neg hk, hby], preservesCore_id⟩
    | cons prev rest =>
      obtain ⟨F, hF, hcF⟩ := cascadeDb_map rest db prev
      exact ⟨F, by simp only [recalculateTimesFromItem, if_neg hk, hby]; exact hF, hcF⟩

end CorePreservation

section ClaimC3

attribute [local semireducible] Rat.mul Rat.inv

/-- The engine's structural invariant over one itinerary's rows: ids are
distinct, the multiset of order positions is exactly `0 .. n-1`, and a
row is flagged as the starting point exactly when its order position is
zero. -/
def EngineInv (db : List Item) : Prop :=
  (db.map Item.id).Nodup ∧
  (db.map Item.order_index).Perm ((List.range db.length).map Int.ofNat) ∧
  ∀ it ∈ db, it.is_starting_point = decide (it.order_index = 0)

/-- Core-preserving maps keep the engine invariant. -/
theorem engineInv_map {db : List Item} {F : Item → Item}
    (h : EngineInv db) (hF : PreservesCore F) : EngineInv (db.map F) := by
  obtain ⟨h1, h2, h3⟩ := h
  have hid : (db.map F).map Item.id = db.map Item.id := by
    rw [List.map_map]
    exact List.map_congr_left (fun a _ => (hF a).1)
  have hord : (db.map F).map Item.order_index = db.map Item.order_index := by
    rw [List.map_map]
    exact List.map_congr_left (fun a _ => (hF a).2.1)
  refine ⟨by rw [hid]; exact h1, ?_, ?_⟩
  · rw [hord, List.length_map]
    exact h2
  · intro it hit
    obtain ⟨r, hr, hrF⟩ := List.mem_map.mp hit
    subst hrF
    rw [(hF r).2.2.1, (hF r).2.1]
    exact h3 r hr

/-- Appending a freshly created row at the next free position keeps the
invariant. -/
theorem engineInv_insertRow (db : List Item) (data : NewItem) (now : Nat)
    (h : EngineInv db) (hord : data.orderIndex = db.length)
    (hfresh : data.id ∉ db.map Item.id) :
    EngineInv (db ++ [insertRow data now]) := by
  obtain ⟨h1, h2, h3⟩ := h
  refine ⟨?_, ?_, ?_⟩
  · rw [List.map_append, List.nodup_append]
    refine ⟨h1, by simp [insertRow], ?_⟩
    intro a ha hb
    simp only [List.map_cons, List.map_nil, List.mem_singleton] at hb
    apply hfresh
    rw [show (insertRow data now).id = data.id from rfl] at hb
    rw [← hb]
    exact ha
  · rw [List.map_append, List.length_append]
    simp only [List.map_cons, List.map_nil, List.length_singleton]
    rw [show (insertRow data now).order_index = ((data.orderIndex : Nat) : ℤ) from rfl, hord]
    rw [List.range_succ, List.map_append]
    exact h2.append (List.Perm.refl _)
  · intro it hit
    rcases List.mem_append.mp hit with hmem | hmem
    · exact h3 it hmem
    · simp only [List.mem_singleton] at hmem
      subst hmem
      show decide (data.orderIndex = 0) = decide ((data.orderIndex : ℤ) = 0)
      rw [decide_eq_decide]
      exact_mod_cast Iff.rfl

/-- `createItineraryItem` at the next free position with a fresh id keeps
the invariant. -/
theorem engineInv_create (ctx : Ctx) (beh : Behaviour) (idx : Nat) (db : List Item)
    (data : NewItem) (now : Nat) (h : EngineInv db)
    (hord : data.orderIndex = db.length) (hfresh : data.id ∉ db.map Item.id) :
    EngineInv (createItineraryItem ctx beh idx db data now).1 := by
  have hbase : EngineInv (db ++ [insertRow data now]) :=
    engineInv_insertRow db data now h hord hfresh
  unfold createItineraryItem
  by_cases h0 : 0 < data.orderIndex
  · simp only [if_pos h0]
    obtain ⟨F, hF, hcF, _⟩ :=
      calcDist_map ctx beh idx (db ++ [insertRow data now]) data.id
    obtain ⟨G, hG, hcG⟩ :=
      recalculateTimesFromItem_map
        (calculateDistancesForItem ctx beh idx (db ++ [insertRow data now]) data.id).1
        (data.orderIndex - 1)
    show EngineInv (recalculateTimesFromItem _ _)
    rw [hG, hF]
    exact engineInv_map (engineInv_map hbase hcF) hcG
  · simp only [if_neg h0]
    obtain ⟨G, hG, hcG⟩ :=
      recalculateTimesFromItem_map (db ++ [insertRow data now]) data.orderIndex
    show EngineInv (recalculateTimesFromItem _ _)
    rw [hG]
    exact engineInv_map hbase hcG

/-- Mapping each element of a duplicate-free list to its index enumerates
`0 .. n-1`. -/
theorem indexOf_map_range (ids : List Nat) (h : ids.Nodup) :
    ids.map (fun x => ids.indexOf x) = List.range ids.length := by
  induction ids with
  | nil => rfl
  | cons a l ih =>
    rcases List.nodup_cons.mp h with ⟨ha, hl⟩
    simp only [List.map_cons, List.indexOf_cons_self, List.length_cons]
    rw [List.range_succ_eq_map]
    congr 1
    have hstep : ∀ x ∈ l, List.indexOf x (a :: l) = (List.indexOf x l).succ := by
      intro x hx
      exact List.indexOf_cons_ne l (fun he => ha (he ▸ hx))
    calc l.map (fun x => List.indexOf x (a :: l))
        = l.map (fun x => (List.indexOf x l).succ) := List.map_congr_left hstep
      _ = (l.map (fun x => List.indexOf x l)).map Nat.succ := by rw [List.map_map]; rfl
      _ = (List.range l.length).map Nat.succ := by rw [ih hl]

/-- The order-assignment loop of `reorderItems`, characterized: a row
whose id occurs in the list gets order `k +` its index (and the flag of
index `k + index = 0`); other rows are untouched. -/
theorem assignOrders_char (ids : List Nat) : ∀ (k : Nat) (db : List Item), ids.Nodup →
    assignOrders db k ids = db.map (fun r =>
      if r.id ∈ ids then
        { r with order_index := ((k + List.indexOf r.id ids : Nat) : ℤ),
                 is_starting_point := decide (k + List.indexOf r.id ids = 0) }
      else r) := by
  induction ids with
  | nil =>
    intro k db _
    show db = _
    symm
    exact map_pointwise_id (fun x _ => by simp)
  | cons tid rest ih =>
    intro k db hnd
    rcases List.nodup_cons.mp hnd with ⟨htid, hrest⟩
    show assignOrders _ (k + 1) rest = _
    rw [ih (k + 1) _ hrest, List.map_map]
    apply List.map_congr_left
    intro r _
    by_cases hr : r.id = tid
    · simp [hr, htid, List.indexOf_cons_self]
    · by_cases hmem : r.id ∈ rest
      · have hidx : List.indexOf r.id (tid :: rest) = (List.indexOf r.id rest).succ :=
          List.indexOf_cons_ne rest (fun he => hr he.symm)
        have harith : k + 1 + List.indexOf r.id rest = k + (List.indexOf r.id rest + 1) := by
          omega
        simp [hr, hmem, hidx, harith]
        omega
      · simp [hr, hmem]

/-- `reorderItems` over a permutation of the itinerary's ids keeps the
invariant. -/
theorem engineInv_reorder (ctx : Ctx) (beh : Behaviour) (idx : Nat) (db : List Item)
    (ids : List Nat) (h : EngineInv db) (hperm : ids.Perm (db.map Item.id)) :
    EngineInv (reorderItems ctx beh idx db ids).1 := by
  obtain ⟨h1, h2, h3⟩ := h
  have hnd : ids.Nodup := hperm.nodup_iff.mpr h1
  have hmemids : ∀ r ∈ db, r.id ∈ ids :=
    fun r hr => hperm.mem_iff.mpr (List.mem_map_of_mem _ hr)
  have hdb1 : assignOrders db 0 ids = db.map (fun r =>
      { r with order_index := ((List.indexOf r.id ids : Nat) : ℤ),
               is_starting_point := decide (List.indexOf r.id ids = 0) }) := by
    rw [assignOrders_char ids 0 db hnd]
    apply List.map_congr_left
    intro r hr
    rw [if_pos (hmemids r hr)]
    simp
  have hInv1 : EngineInv (assignOrders db 0 ids) := by
    rw [hdb1]
    refine ⟨?_, ?_, ?_⟩
    · have : (db.map (fun r =>
          ({ r with order_index := ((List.indexOf r.id ids : Nat) : ℤ),
                    is_starting_point := decide (List.indexOf r.id ids = 0) } : Item))).map Item.id =
          db.map Item.id := by
        rw [List.map_map]
        exact List.map_congr_left (fun a _ => rfl)
      rw [this]
      exact h1
    · rw [List.map_map, List.length_map]
      have hlen : db.length = ids.length := (hperm.length_eq.trans (List.length_map _ _)).symm
      have hcomp : db.map (fun r => ((List.indexOf r.id ids : Nat) : ℤ)) =
          (db.map Item.id).map (fun x => ((List.indexOf x ids : Nat) : ℤ)) := by
        rw [List.map_map]
        exact List.map_congr_left (fun a _ => rfl)
      show (db.map fun r => ((List.indexOf r.id ids : Nat) : ℤ)).Perm _
      rw [hcomp, hlen]
      have hp2 : ((db.map Item.id).map (fun x => ((List.indexOf x ids : Nat) : ℤ))).Perm
          (ids.map (fun x => ((List.indexOf x ids : Nat) : ℤ))) :=
        (hperm.map _).symm
      refine hp2.trans ?_
      have : ids.map (fun x => ((List.indexOf x ids : Nat) : ℤ)) =
          (ids.map (fun x => List.indexOf x ids)).map Int.ofNat := by
        rw [List.map_map]
        exact List.map_congr_left (fun a _ => rfl)
      rw [this, indexOf_map_range ids hnd]
    · intro it hit
      obtain ⟨r, _, hrF⟩ := List.mem_map.mp hit
      subst hrF
      show decide (List.indexOf r.id ids = 0) = decide (((List.indexOf r.id ids : Nat) : ℤ) = 0)
      rw [decide_eq_decide]
      exact_mod_cast Iff.rfl
  unfold reorderItems
  obtain ⟨F, hF, hcF, _⟩ :=
    recalcDistGo_map ctx beh (ids.drop 1) idx (assignOrders db 0 ids)
  obtain ⟨G, hG, hcG⟩ :=
    recalculateTimesFromItem_map
      (recalcDistGo ctx beh idx (assignOrders db 0 ids) (ids.drop 1)).1 0
  show EngineInv (recalculateTimesFromItem _ 0)
  rw [hG, hF]
  exact engineInv_map (engineInv_map hInv1 hcF) hcG

/-- Every reachable itinerary state satisfies the engine invariant. -/
theorem engineInv_reachable (db : List Item) (h : Reachable db) : EngineInv db := by
  induction h with
  | nil => exact ⟨by simp, by simp, by simp⟩
  | insert db ctx beh idx data now _ hord hfresh ih =>
    exact engineInv_create ctx beh idx db data now ih hord hfresh
  | reorder db ctx beh idx ids _ hperm ih =>
    exact engineInv_reorder ctx beh idx db ids ih hperm

/-- At most one row carries any given order position when the order
positions are duplicate-free. -/
theorem length_filter_order_le_one (db : List Item) (c : ℤ)
    (h : (db.map Item.order_index).Nodup) :
    (db.filter (fun it => it.order_index == c)).length ≤ 1 := by
  induction db with
  | nil => simp
  | cons a l ih =>
    simp only [List.map_cons, List.nodup_cons] at h
    obtain ⟨ha, hl⟩ := h
    by_cases hc : (a.order_index == c) = true
    · have hnil : l.filter (fun it => it.order_index == c) = [] := by
        rw [List.filter_eq_nil_iff]
        intro b hb hbc
        apply ha
        have hbc' : b.order_index = c := by simpa using hbc
        have hac' : a.order_index = c := by simpa using hc
        rw [show a.order_index = b.order_index from hac'.trans hbc'.symm]
        exact List.mem_map_of_mem _ hb
      rw [List.filter_cons, if_pos hc, hnil]
      simp
    · rw [List.filter_cons, if_neg hc]
      exact ih hl

/-- The fixtures of the C3 trace: two appended items with coordinates. -/
def exDataA : NewItem :=
  { id := 1, orderIndex := 0, title := "A", description := none,
    startTime := none, endTime := none, durationMinutes := some 60,
    itemType := "activity", status := none, cost := none, notes := none,
    latitude := some 1, longitude := some 1 }

/-- Second trace fixture, appended at position 1. -/
def exDataB : NewItem :=
  { exDataA with id := 2, orderIndex := 1, latitude := some 2, longitude := some 2 }

/-- Claim C3 counterexample: insert A then B (B gets annotated with
driving, 5000 m), then reorder to [B, A].  The item now at order
position 0 is flagged as the starting point but still carries the
transport-from-previous data it acquired at position 1 — reordering
never clears it, so the position-0 item does not always lack
transport-from-previous data. -/
theorem c3_stale_transport_counterexample :
    ((reorderItems exCtx exBehFast 4
        (createItineraryItem exCtx exBehFast 2
          (createItineraryItem exCtx exBehFast 0 [] exDataA 0).1 exDataB 0).1
        [2, 1]).1.find? (fun it => it.order_index = 0)).map
      (fun it => (it.id, it.is_starting_point, it.distance_from_previous_meters,
        it.travel_time_from_previous_seconds, it.transport_mode)) =
      some (2, true, some 5000, some 1200, some Mode.driving) := by
  decide

/-- Claim C3 as amended: after any sequence of `createItineraryItem`
calls appending at the next free position with fresh ids and
`reorderItems` calls covering exactly the current rows, a row is flagged
as the starting point exactly when its order position is 0, and exactly
one row (none when the itinerary is empty) has order position 0.  The
original claim's third part — that the position-0 row carries no
transport-from-previous data — fails: it is never freshly annotated at
position 0, but a reorder can move an annotated row there with its stale
data (see the counterexample). -/
theorem c3_starting_point_amended (db : List Item) (h : Reachable db) :
    (∀ it ∈ db, it.is_starting_point = true ↔ it.order_index = 0) ∧
    (db.filter (fun it => it.order_index == 0)).length ≤ 1 ∧
    (db ≠ [] → (db.filter (fun it => it.order_index == 0)).length = 1) := by
  obtain ⟨h1, h2, h3⟩ := engineInv_reachable db h
  have hordnd : (db.map Item.order_index).Nodup := by
    refine h2.symm.nodup ?_
    exact ((List.nodup_range db.length).map (fun a b h => Int.ofNat.inj h))
  refine ⟨?_, length_filter_order_le_one db 0 hordnd, ?_⟩
  · intro it hit
    rw [h3 it hit]
    constructor
    · exact of_decide_eq_true
    · intro he
      rw [he]
      rfl
  · intro hne
    have hpos : 0 < db.length := List.length_pos.mpr hne
    have hmem : (0 : ℤ) ∈ (List.range db.length).map Int.ofNat := by
      refine List.mem_map.mpr ⟨0, List.mem_range.mpr hpos, rfl⟩
    have hmem' : (0 : ℤ) ∈ db.map Item.order_index := h2.mem_iff.mpr hmem
    obtain ⟨r, hr, hr0⟩ := List.mem_map.mp hmem'
    have hrf : r ∈ db.filter (fun it => it.order_index == 0) :=
      List.mem_filter.mpr ⟨hr, by simp [hr0]⟩
    have hge : 1 ≤ (db.filter (fun it => it.order_index == 0)).length :=
      List.length_pos.mpr (List.ne_nil_of_mem hrf)
    have hle := length_filter_order_le_one db 0 hordnd
    omega

/-- Witness for C3 on a concrete one-insert trace. -/
theorem c3_starting_point_amended_witness :
    (∀ it ∈ (createItineraryItem exCtx exBehFast 0 [] exDataA 0).1,
      it.is_starting_point = true ↔ it.order_index = 0) ∧
    ((createItineraryItem exCtx exBehFast 0 [] exDataA 0).1.filter
      (fun it => it.order_index == 0)).length ≤ 1 ∧
    ((createItineraryItem exCtx exBehFast 0 [] exDataA 0).1 ≠ [] →
      ((createItineraryItem exCtx exBehFast 0 [] exDataA 0).1.filter
        (fun it => it.order_index == 0)).length = 1) :=
  c3_starting_point_amended (createItineraryItem exCtx exBehFast 0 [] exDataA 0).1
    (Reachable.insert [] exCtx exBehFast 0 exDataA 0 Reachable.nil rfl (by simp))

end ClaimC3

section ClaimC7

/-- A pending annotator write preserves the row id. -/
@[simp] theorem setDistFields_id (fr : RouteResult) (tm : Option Mode) (it : Item) :
    (setDistFields fr tm it).id = it.id := rfl

/-- A pending annotator write preserves the order position. -/
@[simp] theorem setDistFields_order (fr : RouteResult) (tm : Option Mode) (it : Item) :
    (setDistFields fr tm it).order_index = it.order_index := rfl

/-- A pending annotator write preserves the latitude. -/
@[simp] theorem setDistFields_lat (fr : RouteResult) (tm : Option Mode) (it : Item) :
    (setDistFields fr tm it).latitude = it.latitude := rfl

/-- A pending annotator write preserves the longitude. -/
@[simp] theorem setDistFields_lng (fr : RouteResult) (tm : Option Mode) (it : Item) :
    (setDistFields fr tm it).longitude = it.longitude := rfl

/-- A pending annotator write stores exactly the given mode. -/
@[simp] theorem setDistFields_mode (fr : RouteResult) (tm : Option Mode) (it : Item) :
    (setDistFields fr tm it).transport_mode = tm := rfl

/-- Under a stable resolver the running call index is irrelevant to the
annotation decision. -/
theorem distDecision_idx_irrel (ctx : Ctx) (f : Query → Except Unit (Option RouteResult))
    (idx idx' : Nat) (cur : Item) (plat plng : Option ℚ) :
    distDecision ctx (fun _ => f) idx cur plat plng =
      distDecision ctx (fun _ => f) idx' cur plat plng := rfl

/-- Under a stable resolver the running call index is irrelevant to the
per-item annotator. -/
theorem calcDist_idx_irrel (ctx : Ctx) (f : Query → Except Unit (Option RouteResult))
    (idx idx' : Nat) (db : List Item) (i : Nat) :
    calculateDistancesForItem ctx (fun _ => f) idx db i =
      calculateDistancesForItem ctx (fun _ => f) idx' db i := rfl

/-- `find?` over a pointwise-rewritten table, when the predicate cannot
see the rewrite. -/
theorem find?_map_pred {G : Item → Item} {p : Item → Bool} (db : List Item)
    (hp : ∀ x, p (G x) = p x) : (db.map G).find? p = (db.find? p).map G := by
  induction db with
  | nil => rfl
  | cons a l ih =>
    by_cases hpa : p a = true
    · rw [List.map_cons, List.find?_cons_of_pos _ (by rw [hp]; exact hpa),
        List.find?_cons_of_pos _ hpa]
      rfl
    · rw [List.map_cons, List.find?_cons_of_neg _ (by rw [hp]; simpa using hpa),
        List.find?_cons_of_neg _ (by simpa using hpa), ih]

/-- Issuing the same annotation `UPDATE` twice is the same as issuing it
once. -/
theorem updateById_setDist_idem (db : List Item) (i : Nat) (fr : RouteResult)
    (tm : Option Mode) :
    updateById (updateById db i (setDistFields fr tm)) i (setDistFields fr tm) =
      updateById db i (setDistFields fr tm) := by
  unfold updateById
  rw [List.map_map]
  apply List.map_congr_left
  intro x _
  show (fun it => if it.id = i then setDistFields fr tm it else it)
      ((fun it => if it.id = i then setDistFields fr tm it else it) x) = _
  by_cases hx : x.id = i
  · simp [hx, setDistFields]
  · simp [hx]

/-- Inversion of a successful annotation decision under a stable
resolver: the write stores a concrete mode, and the resolver answers the
query carrying that very mode with the stored route result.  (The
decision could only store an unset mode after a preliminary driving query
returning no result, but then the final query is the identical driving
query, which under a stable resolver returns no result as well, so no
write happens in that case.) -/
theorem distDecision_some_inv (ctx : Ctx) (f : Query → Except Unit (Option RouteResult))
    (idx : Nat) (cur : Item) (plat plng : Option ℚ) (fr : RouteResult) (tm : Option Mode)
    (h : (distDecision ctx (fun _ => f) idx cur plat plng).1 = some (fr, tm)) :
    ∃ m' cc1 cc2 p1 p2, tm = some m' ∧
      truthyQ cur.latitude = some cc1 ∧ truthyQ cur.longitude = some cc2 ∧
      truthyQ plat = some p1 ∧ truthyQ plng = some p2 ∧
      f ((p1, p2), (cc1, cc2), m') = .ok (some fr) := by
  simp only [distDecision] at h
  split at h
  · rename_i clat clng pla pln h1 h2 h3 h4
    split at h
    · rename_i m hm
      split at h
      · simp at h
      · simp at h
      · rename_i fr0 hf
        simp only [Option.some.injEq, Prod.mk.injEq] at h
        obtain ⟨hfr, htm⟩ := h
        subst hfr
        exact ⟨m, clat, clng, pla, pln, htm.symm, h1, h2, h3, h4, hf⟩
    · rename_i hm
      split at h
      · simp at h
      · rename_i r0 hq
        cases r0 with
        | none =>
          simp only [Option.map_none', Option.getD_none] at h
          rw [hq] at h
          simp at h
        | some r =>
          simp only [Option.map_some', Option.getD_some] at h
          split at h
          · simp at h
          · simp at h
          · rename_i fr0 hf2
            simp only [Option.some.injEq, Prod.mk.injEq] at h
            obtain ⟨hfr, htm⟩ := h
            subst hfr
            exact ⟨_, clat, clng, pla, pln, htm.symm, h1, h2, h3, h4, hf2⟩
  · simp at h

/-- Re-running the annotator on an item immediately after annotating it
leaves the table unchanged (stable resolver). -/
theorem calcDist_postfixed (ctx : Ctx) (f : Query → Except Unit (Option RouteResult))
    (idx idx' : Nat) (db : List Item) (i : Nat) :
    (calculateDistancesForItem ctx (fun _ => f) idx'
        ((calculateDistancesForItem ctx (fun _ => f) idx db i).1) i).1 =
      (calculateDistancesForItem ctx (fun _ => f) idx db i).1 := by
  cases hc : db.find? (fun it => it.id = i) with
  | none =>
    have h1 : (calculateDistancesForItem ctx (fun _ => f) idx db i).1 = db := by
      simp [calculateDistancesForItem, hc]
    rw [h1]
    simp [calculateDistancesForItem, hc]
  | some cur =>
    cases hp : db.find? (fun it => it.order_index = cur.order_index - 1) with
    | none =>
      have h1 : (calculateDistancesForItem ctx (fun _ => f) idx db i).1 = db := by
        simp [calculateDistancesForItem, hc, hp]
      rw [h1]
      simp [calculateDistancesForItem, hc, hp]
    | some prev =>
      have hcuri : cur.id = i := by simpa using List.find?_some hc
      have h1 : (calculateDistancesForItem ctx (fun _ => f) idx db i).1 =
          applyW db i (distDecision ctx (fun _ => f) idx cur prev.latitude prev.longitude).1 := by
        simp only [calculateDistancesForItem, hc, hp]
      cases hw : (distDecision ctx (fun _ => f) idx cur prev.latitude prev.longitude).1 with
      | none =>
        rw [h1, hw]
        show (calculateDistancesForItem ctx (fun _ => f) idx' db i).1 = db
        have hinv : distDecision ctx (fun _ => f) idx' cur prev.latitude prev.longitude =
            distDecision ctx (fun _ => f) idx cur prev.latitude prev.longitude :=
          distDecision_idx_irrel ctx f idx' idx cur prev.latitude prev.longitude
        simp only [calculateDistancesForItem, hc, hp, hinv, hw, applyW]
      | some p =>
        obtain ⟨fr, tm⟩ := p
        obtain ⟨m', cc1, cc2, p1, p2, htm, hclat, hclng, hplat, hplng, hfq⟩ :=
          distDecision_some_inv ctx f idx cur prev.latitude prev.longitude fr tm hw
        subst htm
        rw [h1, hw]
        show (calculateDistancesForItem ctx (fun _ => f) idx'
            (updateById db i (setDistFields fr (some m'))) i).1 =
          updateById db i (setDistFields fr (some m'))
        have hfind1 : (updateById db i (setDistFields fr (some m'))).find?
            (fun it => it.id = i) = some (setDistFields fr (some m') cur) := by
          unfold updateById
          rw [find?_map_pred db (fun x => by by_cases hx : x.id = i <;> simp [hx]), hc]
          simp [hcuri]
        have hfind2 : (updateById db i (setDistFields fr (some m'))).find?
            (fun it => it.order_index = cur.order_index - 1) =
            some (if prev.id = i then setDistFields fr (some m') prev else prev) := by
          unfold updateById
          rw [find?_map_pred db (fun x => by by_cases hx : x.id = i <;> simp [hx]), hp]
          rfl
        have hlat : (if prev.id = i then setDistFields fr (some m') prev
            else prev).latitude = prev.latitude := by
          by_cases hx : prev.id = i <;> simp [hx]
        have hlng : (if prev.id = i then setDistFields fr (some m') prev
            else prev).longitude = prev.longitude := by
          by_cases hx : prev.id = i <;> simp [hx]
        have hdec : (distDecision ctx (fun _ => f) idx' (setDistFields fr (some m') cur)
            (if prev.id = i then setDistFields fr (some m') prev else prev).latitude
            (if prev.id = i then setDistFields fr (some m') prev else prev).longitude).1 =
            some (fr, some m') := by
          rw [hlat, hlng]
          simp only [distDecision, setDistFields_lat, setDistFields_lng, setDistFields_mode,
            hclat, hclng, hplat, hplng, hfq]
        simp only [calculateDistancesForItem, hfind1, setDistFields_order, hfind2, hdec]
        exact updateById_setDist_idem db i fr (some m')

/-- Fixedness of an item under the annotator survives annotating any
item (stable resolver). -/
theorem calcDist_fixed_step (ctx : Ctx) (f : Query → Except Unit (Option RouteResult))
    (idx1 idx2 idx3 : Nat) (db : List Item) (i j : Nat)
    (hfix : (calculateDistancesForItem ctx (fun _ => f) idx1 db i).1 = db) :
    (calculateDistancesForItem ctx (fun _ => f) idx2
        ((calculateDistancesForItem ctx (fun _ => f) idx3 db j).1) i).1 =
      (calculateDistancesForItem ctx (fun _ => f) idx3 db j).1 := by
  by_cases hij : i = j
  · subst hij
    have hbase : (calculateDistancesForItem ctx (fun _ => f) idx3 db i).1 = db := by
      rw [calcDist_idx_irrel ctx f idx3 idx1]
      exact hfix
    rw [hbase]
    rw [calcDist_idx_irrel ctx f idx2 idx1]
    exact hfix
  · obtain ⟨G, hG, hcG, huG⟩ := calcDist_map ctx (fun _ => f) idx3 db j
    rw [hG]
    cases hc : db.find? (fun it => it.id = i) with
    | none =>
      have hcm : (db.map G).find? (fun it => it.id = i) = none := by
        rw [find?_map_pred db (fun x => by rw [(hcG x).1]), hc]
        rfl
      simp [calculateDistancesForItem, hcm]
    | some cur =>
      have hcuri : cur.id = i := by simpa using List.find?_some hc
      have hGcur : G cur = cur := huG cur (by rw [hcuri]; exact hij)
      have hcm : (db.map G).find? (fun it => it.id = i) = some cur := by
        rw [find?_map_pred db (fun x => by rw [(hcG x).1]), hc, Option.map_some', hGcur]
      cases hp : db.find? (fun it => it.order_index = cur.order_index - 1) with
      | none =>
        have hpm : (db.map G).find? (fun it => it.order_index = cur.order_index - 1) = none := by
          rw [find?_map_pred db (fun x => by rw [(hcG x).2.1]), hp]
          rfl
        simp [calculateDistancesForItem, hcm, hpm]
      | some prev =>
        have hpm : (db.map G).find? (fun it => it.order_index = cur.order_index - 1) =
            some (G prev) := by
          rw [find?_map_pred db (fun x => by rw [(hcG x).2.1]), hp]
          rfl
        have h1 : (calculateDistancesForItem ctx (fun _ => f) idx1 db i).1 =
            applyW db i (distDecision ctx (fun _ => f) idx1 cur prev.latitude
              prev.longitude).1 := by
          simp only [calculateDistancesForItem, hc, hp]
        have hfix' : applyW db i
            (distDecision ctx (fun _ => f) idx1 cur prev.latitude prev.longitude).1 = db := by
          rw [← h1]
          exact hfix
        have hdec' : distDecision ctx (fun _ => f) idx2 cur (G prev).latitude
            (G prev).longitude =
            distDecision ctx (fun _ => f) idx1 cur prev.latitude prev.longitude := by
          rw [(hcG prev).2.2.2.1, (hcG prev).2.2.2.2]
          exact distDecision_idx_irrel ctx f idx2 idx1 cur prev.latitude prev.longitude
        simp only [calculateDistancesForItem, hcm, hpm, hdec']
        cases hw : (distDecision ctx (fun _ => f) idx1 cur prev.latitude prev.longitude).1 with
        | none => rfl
        | some p =>
          rw [hw] at hfix'
          have hpw : ∀ x ∈ db,
              (if x.id = i then setDistFields p.1 p.2 x else x) = x :=
            pointwise_of_map_eq hfix'
          show updateById (db.map G) i (setDistFields p.1 p.2) = db.map G
          unfold updateById
          rw [List.map_map]
          apply List.map_congr_left
          intro x hx
          show (if (G x).id = i then setDistFields p.1 p.2 (G x) else G x) = G x
          by_cases hxi : x.id = i
          · have hGx : G x = x := huG x (by rw [hxi]; exact hij)
            rw [hGx]
            exact hpw x hx
          · rw [(hcG x).1, if_neg hxi]

/-- Fixedness of an item under the annotator survives a whole annotation
loop (stable resolver). -/
theorem calcDist_fixed_go (ctx : Ctx) (f : Query → Except Unit (Option RouteResult))
    (L : List Nat) : ∀ (idx1 idx2 idx3 : Nat) (db : List Item) (i : Nat),
    (calculateDistancesForItem ctx (fun _ => f) idx1 db i).1 = db →
    (calculateDistancesForItem ctx (fun _ => f) idx2
        ((recalcDistGo ctx (fun _ => f) idx3 db L).1) i).1 =
      (recalcDistGo ctx (fun _ => f) idx3 db L).1 := by
  induction L with
  | nil =>
    intro idx1 idx2 idx3 db i hfix
    simp only [recalcDistGo]
    rw [calcDist_idx_irrel ctx f idx2 idx1]
    exact hfix
  | cons j js ih =>
    intro idx1 idx2 idx3 db i hfix
    simp only [recalcDistGo]
    exact ih idx2 idx2
      (idx3 + (calculateDistancesForItem ctx (fun _ => f) idx3 db j).2.length)
      ((calculateDistancesForItem ctx (fun _ => f) idx3 db j).1) i
      (calcDist_fixed_step ctx f idx1 idx2 idx3 db i j hfix)

/-- An annotation loop over ids that are all already fixed leaves the
table unchanged. -/
theorem recalcDistGo_fixed_id (ctx : Ctx) (f : Query → Except Unit (Option RouteResult))
    (L : List Nat) : ∀ (idx idx0 : Nat) (db : List Item),
    (∀ i ∈ L, (calculateDistancesForItem ctx (fun _ => f) idx0 db i).1 = db) →
    (recalcDistGo ctx (fun _ => f) idx db L).1 = db := by
  induction L with
  | nil => intro idx idx0 db _; rfl
  | cons j js ih =>
    intro idx idx0 db h
    simp only [recalcDistGo]
    have hj : (calculateDistancesForItem ctx (fun _ => f) idx db j).1 = db := by
      rw [calcDist_idx_irrel ctx f idx idx0]
      exact h j (List.mem_cons_self j js)
    rw [hj]
    exact ih _ idx0 db (fun i hi => h i (List.mem_cons_of_mem j hi))

/-- After an annotation loop every processed id is fixed: annotating it
again would not change the table (stable resolver). -/
theorem recalcDistGo_postfixed (ctx : Ctx) (f : Query → Except Unit (Option RouteResult))
    (L : List Nat) : ∀ (idx idxa : Nat) (db : List Item) (i : Nat), i ∈ L →
    (calculateDistancesForItem ctx (fun _ => f) idxa
        ((recalcDistGo ctx (fun _ => f) idx db L).1) i).1 =
      (recalcDistGo ctx (fun _ => f) idx db L).1 := by
  induction L with
  | nil => intro _ _ _ _ h; exact absurd h (List.not_mem_nil _)
  | cons j js ih =>
    intro idx idxa db i hi
    simp only [recalcDistGo]
    rcases List.mem_cons.mp hi with he | hm
    · subst he
      exact calcDist_fixed_go ctx f js idxa idxa
        (idx + (calculateDistancesForItem ctx (fun _ => f) idx db i).2.length)
        ((calculateDistancesForItem ctx (fun _ => f) idx db i).1) i
        (calcDist_postfixed ctx f idx idxa db i)
    · exact ih (idx + (calculateDistancesForItem ctx (fun _ => f) idx db j).2.length) idxa
        ((calculateDistancesForItem ctx (fun _ => f) idx db j).1) i hm

/-- A core-preserving rewrite of the rows commutes with the sort's
ordered insertion. -/
theorem orderedInsert_map_core {F : Item → Item} (hF : PreservesCore F) (a : Item) :
    ∀ l : List Item, (l.orderedInsert itemLe a).map F =
      (l.map F).orderedInsert itemLe (F a) := by
  intro l
  induction l with
  | nil => rfl
  | cons b t ih =>
    simp only [List.orderedInsert, List.map_cons]
    by_cases h : itemLe a b
    · rw [if_pos h, if_pos (show itemLe (F a) (F b) by
        show (F a).order_index ≤ (F b).order_index
        rw [(hF a).2.1, (hF b).2.1]
        exact h)]
      simp
    · rw [if_neg h, if_neg (show ¬ itemLe (F a) (F b) by
        show ¬ (F a).order_index ≤ (F b).order_index
        rw [(hF a).2.1, (hF b).2.1]
        exact h)]
      rw [List.map_cons, ih]

/-- A core-preserving rewrite of the rows commutes with the day-order
listing. -/
theorem itemsByDay_map_core {F : Item → Item} (hF : PreservesCore F) :
    ∀ db : List Item, itemsByDay (db.map F) = (itemsByDay db).map F := by
  intro db
  induction db with
  | nil => rfl
  | cons a t ih =>
    show List.insertionSort itemLe (F a :: t.map F) = _
    simp only [List.insertionSort]
    rw [show List.insertionSort itemLe (t.map F) = itemsByDay (t.map F) from rfl, ih,
      ← orderedInsert_map_core hF a]
    rfl

/-- Claim C7: idempotence of full re-annotation.  With a stable Location
Resolver (the same query always gets the same answer) and no intervening
mutation, running `recalculateDistances` a second time reproduces exactly
the table state left by the first run, so every item's stored distance
meters, distance text, travel-time seconds, travel-time text, and
transport mode are identical after the second call to their values after
the first call. -/
theorem c7_recalculate_distances_idempotent (ctx : Ctx)
    (f : Query → Except Unit (Option RouteResult)) (idx1 idx2 : Nat) (db : List Item) :
    (recalculateDistances ctx (fun _ => f) idx2
        (recalculateDistances ctx (fun _ => f) idx1 db).1).1 =
      (recalculateDistances ctx (fun _ => f) idx1 db).1 := by
  unfold recalculateDistances
  obtain ⟨F, hF, hcF, huF⟩ :=
    recalcDistGo_map ctx (fun _ => f) (((itemsByDay db).drop 1).map Item.id) idx1 db
  have hids : Item.id ∘ F = Item.id := funext fun r => (hcF r).1
  have hL2 : ((itemsByDay ((recalcDistGo ctx (fun _ => f) idx1 db
      (((itemsByDay db).drop 1).map Item.id)).1)).drop 1).map Item.id =
      ((itemsByDay db).drop 1).map Item.id := by
    rw [hF, itemsByDay_map_core hcF, ← List.map_drop, List.map_map, hids]
  rw [hL2]
  exact recalcDistGo_fixed_id ctx f (((itemsByDay db).drop 1).map Item.id) idx2 idx2
    ((recalcDistGo ctx (fun _ => f) idx1 db (((itemsByDay db).drop 1).map Item.id)).1)
    (fun i hi => recalcDistGo_postfixed ctx f (((itemsByDay db).drop 1).map Item.id)
      idx1 idx2 db i hi)

end ClaimC7

end Triplan
